import Mathlib

/-!
Verification of the palettd color pipeline (hex/rgb/hsl parsing, color-space
conversion, WCAG contrast, perceptual naming) against its specification.
JavaScript numbers are modelled as rationals (ℚ) where the source performs
exact arithmetic and as reals (ℝ) where it uses transcendental functions
(pow, cbrt, sqrt, atan2).  Fallible operations return `Option`.
-/

set_option maxRecDepth 10000

namespace Palettd

/-! ### JavaScript string and number primitives -/

/-- Whitespace characters recognised by JavaScript's `\s` (ASCII subset). -/
def isJsWs (c : Char) : Bool :=
  c = ' ' ∨ c = '\t' ∨ c = '\n' ∨ c = '\r' ∨ c = Char.ofNat 11 ∨ c = Char.ofNat 12

/-- Decimal digit test, as in the regex class `\d`. -/
def isDigitChar (c : Char) : Bool := '0' ≤ c ∧ c ≤ '9'

/-- Hexadecimal digit test, as in `[0-9a-fA-F]`. -/
def isHexDigitChar (c : Char) : Bool :=
  isDigitChar c ∨ ('a' ≤ c ∧ c ≤ 'f') ∨ ('A' ≤ c ∧ c ≤ 'F')

/-- Numeric value of a hexadecimal digit character. -/
def hexDigitVal (c : Char) : ℕ :=
  if isDigitChar c then c.toNat - '0'.toNat
  else if 'a' ≤ c ∧ c ≤ 'f' then c.toNat - 'a'.toNat + 10
  else c.toNat - 'A'.toNat + 10

/-- Value of a big-endian string of hexadecimal digits. -/
def hexListVal (l : List Char) : ℕ :=
  l.foldl (fun acc c => 16 * acc + hexDigitVal c) 0

/-- Value of a big-endian string of decimal digits. -/
def decListVal (l : List Char) : ℕ :=
  l.foldl (fun acc c => 10 * acc + (c.toNat - '0'.toNat)) 0

/-- JavaScript `parseInt(s, 16)`: skip whitespace, optional sign, optional
`0x` prefix, then the longest run of hex digits; `none` models `NaN`. -/
def jsParseInt16 (s : List Char) : Option ℤ :=
  let s1 := s.dropWhile isJsWs
  let sgn : ℤ := if s1.head? = some '-' then -1 else 1
  let s2 : List Char := if s1.head? = some '-' ∨ s1.head? = some '+' then s1.tail else s1
  let s3 : List Char :=
    if s2.head? = some '0' ∧ (s2.tail.head? = some 'x' ∨ s2.tail.head? = some 'X') then
      s2.tail.tail
    else s2
  let ds := s3.takeWhile isHexDigitChar
  if ds = [] then none else some (sgn * (hexListVal ds : ℤ))

/-- JavaScript `parseFloat` on strings of the shapes captured by the rgb/hsl
regexes (`digits`, `digits.digits`, `.digits`, optionally followed by a unit
or `%` which `parseFloat` ignores); `none` models `NaN`. -/
def parseFloatQ (l : List Char) : Option ℚ :=
  let ip := l.takeWhile isDigitChar
  let rest := l.dropWhile isDigitChar
  match rest with
  | '.' :: t =>
    let fp := t.takeWhile isDigitChar
    if ip = [] ∧ fp = [] then none
    else some ((decListVal ip : ℚ) + (decListVal fp : ℚ) / (10 ^ fp.length))
  | _ => if ip = [] then none else some (decListVal ip)

/-- JavaScript `Math.round` on a rational: half-up rounding. -/
def jsRound (q : ℚ) : ℤ := ⌊q + 1/2⌋

/-- JavaScript `Math.round` on a real. -/
noncomputable def jsRoundR (x : ℝ) : ℤ := ⌊x + 1/2⌋

/-- ASCII lower-casing of a string, as `String.prototype.toLowerCase` does
on the ASCII inputs used here. -/
def jsToLower (s : String) : String := ⟨s.data.map Char.toLower⟩

/-- ASCII upper-casing of a string. -/
def jsToUpper (s : String) : String := ⟨s.data.map Char.toUpper⟩

/-- JavaScript `String.prototype.trim` on a character list. -/
def jsTrimList (l : List Char) : List Char :=
  ((l.dropWhile isJsWs).reverse.dropWhile isJsWs).reverse

/-- JavaScript `String.prototype.trim`. -/
def jsTrim (s : String) : String := ⟨jsTrimList s.data⟩

/-- List-level `startsWith`. -/
def startsWithL (s p : List Char) : Bool := p.isPrefixOf s

/-! ### Data model -/

/-- RGBA value: channels as JavaScript numbers (rationals). -/
structure RGBA where
  r : ℚ
  g : ℚ
  b : ℚ
  a : ℚ
deriving DecidableEq, Repr

/-- HSLA value: the converter rounds h/s/l to integers, alpha carried as is. -/
structure HSLA where
  h : ℤ
  s : ℤ
  l : ℤ
  a : ℚ
deriving DecidableEq, Repr

/-- OKLab coordinates (real-valued). -/
structure OKLab where
  L : ℝ
  a : ℝ
  b : ℝ

/-- OKLCH coordinates (real-valued polar form of OKLab). -/
structure OKLCH where
  L : ℝ
  C : ℝ
  h : ℝ

/-- Aggregate normalized color, as produced by `normalizeColor`. -/
structure NormalizedColor where
  input : String
  rgba : RGBA
  hex : String
  hsla : HSLA
  oklab : OKLab
  oklch : OKLCH

/-! ### Hex parser (src/color/parse.ts, parseHex) -/

/-- The `hex.replace(/^#/, '')` step: strip one leading `#`. -/
def hexCleaned (hex : String) : List Char :=
  match hex.data with
  | '#' :: t => t
  | l => l

/-- Assembly of an opaque RGBA from three channel parses; any `NaN`
(modelled by `none`) invalidates the whole input. -/
def hexChannels3 (r g b : Option ℤ) : Option RGBA :=
  match r, g, b with
  | some r, some g, some b => some ⟨(r : ℚ), (g : ℚ), (b : ℚ), 1⟩
  | _, _, _ => none

/-- Assembly of an RGBA from three channel parses and an alpha parse
scaled from [0,255] to [0,1]; any `NaN` invalidates the whole input. -/
def hexChannels4 (r g b a : Option ℤ) : Option RGBA :=
  match r, g, b, a with
  | some r, some g, some b, some a => some ⟨(r : ℚ), (g : ℚ), (b : ℚ), (a : ℚ) / 255⟩
  | _, _, _, _ => none

/-- The switch on the cleaned digit string: exactly 3, 4, 6, or 8
characters are accepted; each channel is read with JavaScript
`parseInt(..., 16)` (shorthand digits duplicated). -/
def parseHexList (cleaned : List Char) : Option RGBA :=
  match cleaned with
  | [c1, c2, c3] =>
    hexChannels3 (jsParseInt16 [c1, c1]) (jsParseInt16 [c2, c2]) (jsParseInt16 [c3, c3])
  | [c1, c2, c3, c4] =>
    hexChannels4 (jsParseInt16 [c1, c1]) (jsParseInt16 [c2, c2]) (jsParseInt16 [c3, c3])
      (jsParseInt16 [c4, c4])
  | [c1, c2, c3, c4, c5, c6] =>
    hexChannels3 (jsParseInt16 [c1, c2]) (jsParseInt16 [c3, c4]) (jsParseInt16 [c5, c6])
  | [c1, c2, c3, c4, c5, c6, c7, c8] =>
    hexChannels4 (jsParseInt16 [c1, c2]) (jsParseInt16 [c3, c4]) (jsParseInt16 [c5, c6])
      (jsParseInt16 [c7, c8])
  | _ => none

/-- Hex color parser: strip one leading `#`, then parse the digit string. -/
def parseHex (hex : String) : Option RGBA :=
  parseHexList (hexCleaned hex)

/-! ### Hex serialization (src/color/parse.ts, rgbaToHex) -/

/-- The `i.toString(16).padStart(2, '0').toUpperCase()` step of the `toHex`
helper, on an already-rounded integer. -/
def intHexByte (i : ℤ) : List Char :=
  let s := if i < 0 then '-' :: Nat.toDigits 16 i.natAbs else Nat.toDigits 16 i.toNat
  let padded := if s.length < 2 then List.replicate (2 - s.length) '0' ++ s else s
  padded.map Char.toUpper

/-- The helper `toHex` in `rgbaToHex`:
`Math.round(n).toString(16).padStart(2, '0').toUpperCase()`. -/
def jsNumToHexByte (q : ℚ) : List Char :=
  intHexByte (jsRound q)

/-- Canonical hex serialization: `#RRGGBB`, with an alpha pair appended
(scaled by 255) exactly when `a < 1`. -/
def rgbaToHex (rgba : RGBA) : String :=
  let hex := '#' :: (jsNumToHexByte rgba.r ++ jsNumToHexByte rgba.g ++ jsNumToHexByte rgba.b)
  if rgba.a < 1 then ⟨hex ++ jsNumToHexByte (rgba.a * 255)⟩ else ⟨hex⟩

/-! ### Backtracking matcher for the rgb()/hsl() regexes

The source matches `rgb()` strings against
`^rgba?\(\s*(\d{1,3}(?:\.\d+)?%?)\s*[,\s]\s*...\s*(?:[,/]\s*(\d*\.?\d+%?))?\s*\)$/i`.
Each combinator below returns the list of ways its regex fragment can match
a prefix of the input, ordered exactly as a backtracking (greedy) regex
engine would try them, so taking the first complete match reproduces the
JavaScript semantics, captures included. -/

/-- Ways `\s*` can split the input, greedy (longest consumed) first. -/
def wsSplits (s : List Char) : List (List Char) :=
  let k := (s.takeWhile isJsWs).length
  (List.range (k + 1)).map (fun j => s.drop (k - j))

/-- Ways `\d{1,3}` can match, greedy first; each result is (capture, rest). -/
def digitsUpTo3 (s : List Char) : List (List Char × List Char) :=
  let k := min (s.takeWhile isDigitChar).length 3
  (List.range k).map (fun j => (s.take (k - j), s.drop (k - j)))

/-- Ways `\d+` can match, greedy first. -/
def digitsAtLeast1 (s : List Char) : List (List Char × List Char) :=
  let k := (s.takeWhile isDigitChar).length
  (List.range k).map (fun j => (s.take (k - j), s.drop (k - j)))

/-- Ways `\d*` can match, greedy first. -/
def digitsAny (s : List Char) : List (List Char × List Char) :=
  let k := (s.takeWhile isDigitChar).length
  (List.range (k + 1)).map (fun j => (s.take (k - j), s.drop (k - j)))

/-- Ways `(?:\.\d+)?` can match: the present branch first (greedy). -/
def optFrac (s : List Char) : List (List Char × List Char) :=
  (if s.head? = some '.' then (digitsAtLeast1 s.tail).map (fun p => ('.' :: p.1, p.2))
   else []) ++ [([], s)]

/-- Ways `%?` can match: the present branch first. -/
def optPctC (s : List Char) : List (List Char × List Char) :=
  (if s.head? = some '%' then [(['%'], s.tail)] else []) ++ [([], s)]

/-- Ways `\.?` can match: the present branch first. -/
def optDot (s : List Char) : List (List Char × List Char) :=
  (if s.head? = some '.' then [(['.'], s.tail)] else []) ++ [([], s)]

/-- Ways the channel group `(\d{1,3}(?:\.\d+)?%?)` can match. -/
def component (s : List Char) : List (List Char × List Char) :=
  (digitsUpTo3 s).flatMap fun p1 =>
    (optFrac p1.2).flatMap fun p2 =>
      (optPctC p2.2).map fun p3 => (p1.1 ++ p2.1 ++ p3.1, p3.2)

/-- Ways the separator `\s*[,\s]\s*` can match (rests only). -/
def sepSplits (s : List Char) : List (List Char) :=
  (wsSplits s).flatMap fun r =>
    match r with
    | c :: t => if c = ',' ∨ isJsWs c then wsSplits t else []
    | [] => []

/-- Ways the alpha number `\d*\.?\d+%?` can match. -/
def alphaVal (s : List Char) : List (List Char × List Char) :=
  (digitsAny s).flatMap fun p1 =>
    (optDot p1.2).flatMap fun p2 =>
      (digitsAtLeast1 p2.2).flatMap fun p3 =>
        (optPctC p3.2).map fun p4 => (p1.1 ++ p2.1 ++ p3.1 ++ p4.1, p4.2)

/-- Ways the optional alpha group `(?:[,/]\s*(alpha))?` can match; the
present branch is tried first. -/
def optAlpha (s : List Char) : List (Option (List Char) × List Char) :=
  (match s with
   | c :: t =>
     if c = ',' ∨ c = '/' then
       (wsSplits t).flatMap (fun r => (alphaVal r).map (fun p => (some p.1, p.2)))
     else []
   | [] => []) ++ [(none, s)]

/-- Test for the closing `\s*\)$`. -/
def endParen (s : List Char) : Bool := s.dropWhile isJsWs = [')']

/-- Ways `rgba?\(` can match case-insensitively (rests only); the branch
consuming the optional `a` is tried first. -/
def rgbHead (s : List Char) : List (List Char) :=
  match s with
  | c1 :: c2 :: c3 :: rest =>
    if Char.toLower c1 = 'r' ∧ Char.toLower c2 = 'g' ∧ Char.toLower c3 = 'b' then
      (match rest with
       | c4 :: t =>
         if Char.toLower c4 = 'a' then
           match t with
           | p :: u => if p = '(' then [u] else []
           | [] => []
         else []
       | [] => []) ++
      (match rest with
       | p :: u => if p = '(' then [u] else []
       | [] => [])
    else []
  | _ => []

/-- Full match of the `rgb()` regex: the four capture groups of the first
(backtracking-order) complete match, or `none`. -/
def rgbCaptures (s : List Char) :
    Option (List Char × List Char × List Char × Option (List Char)) :=
  ((rgbHead s).flatMap fun r0 =>
    (wsSplits r0).flatMap fun r1 =>
    (component r1).flatMap fun p1 =>
    (sepSplits p1.2).flatMap fun r3 =>
    (component r3).flatMap fun p2 =>
    (sepSplits p2.2).flatMap fun r5 =>
    (component r5).flatMap fun p3 =>
    (wsSplits p3.2).flatMap fun r7 =>
    (optAlpha r7).flatMap fun p4 =>
    if endParen p4.2 then [(p1.1, p2.1, p3.1, p4.1)] else []).head?

/-! ### Functional rgb()/rgba() parser (src/color/parse.ts, parseRgb) -/

/-- The `parseComponent` helper with `max = 255`: percentages scale against
255, plain numbers pass through. -/
def parseComponentQ (val : List Char) : Option ℚ :=
  if val.getLast? = some '%' then (parseFloatQ val).map (fun q => q / 100 * 255)
  else parseFloatQ val

/-- Functional rgb()/rgba() parser: regex match, per-channel
round-then-clamp to [0,255], alpha clamped to [0,1]. -/
def parseRgb (str : String) : Option RGBA :=
  match rgbCaptures str.data with
  | none => none
  | some (m1, m2, m3, m4) =>
    match parseComponentQ m1, parseComponentQ m2, parseComponentQ m3 with
    | some rv, some gv, some bv =>
      let r : ℚ := min 255 (max 0 ((jsRound rv : ℤ) : ℚ))
      let g : ℚ := min 255 (max 0 ((jsRound gv : ℤ) : ℚ))
      let b : ℚ := min 255 (max 0 ((jsRound bv : ℤ) : ℚ))
      let aOpt : Option ℚ := match m4 with
        | none => some 1
        | some v =>
          (if v.getLast? = some '%' then (parseFloatQ v).map (· / 100)
           else parseFloatQ v).map (fun a => min 1 (max 0 a))
      match aOpt with
      | some a => some ⟨r, g, b, a⟩
      | none => none
    | _, _, _ => none

/-! ### Functional hsl()/hsla() parser (src/color/parse.ts, parseHsl) -/

/-- Case-insensitive match of a literal, returning the originally-cased
consumed characters and the rest. -/
def matchCI : List Char → List Char → Option (List Char × List Char)
  | [], s => some ([], s)
  | c :: cs, x :: xs =>
    if Char.toLower x = c then (matchCI cs xs).map (fun p => (x :: p.1, p.2)) else none
  | _ :: _, [] => none

/-- Ways the hue unit `(?:deg|rad|turn)?` can match, alternation order
deg, rad, turn, absent. -/
def optUnit (s : List Char) : List (List Char × List Char) :=
  (match matchCI ['d', 'e', 'g'] s with | some p => [p] | none => []) ++
  (match matchCI ['r', 'a', 'd'] s with | some p => [p] | none => []) ++
  (match matchCI ['t', 'u', 'r', 'n'] s with | some p => [p] | none => []) ++ [([], s)]

/-- Ways the hue group `(\d{1,3}(?:\.\d+)?(?:deg|rad|turn)?)` can match. -/
def hueComponent (s : List Char) : List (List Char × List Char) :=
  (digitsUpTo3 s).flatMap fun p1 =>
    (optFrac p1.2).flatMap fun p2 =>
      (optUnit p2.2).map fun p3 => (p1.1 ++ p2.1 ++ p3.1, p3.2)

/-- Ways `hsla?\(` can match case-insensitively (rests only). -/
def hslHead (s : List Char) : List (List Char) :=
  match s with
  | c1 :: c2 :: c3 :: rest =>
    if Char.toLower c1 = 'h' ∧ Char.toLower c2 = 's' ∧ Char.toLower c3 = 'l' then
      (match rest with
       | c4 :: t =>
         if Char.toLower c4 = 'a' then
           match t with
           | p :: u => if p = '(' then [u] else []
           | [] => []
         else []
       | [] => []) ++
      (match rest with
       | p :: u => if p = '(' then [u] else []
       | [] => [])
    else []
  | _ => []

/-- Full match of the `hsl()` regex: the four capture groups of the first
complete match, or `none`. -/
def hslCaptures (s : List Char) :
    Option (List Char × List Char × List Char × Option (List Char)) :=
  ((hslHead s).flatMap fun r0 =>
    (wsSplits r0).flatMap fun r1 =>
    (hueComponent r1).flatMap fun p1 =>
    (sepSplits p1.2).flatMap fun r3 =>
    (component r3).flatMap fun p2 =>
    (sepSplits p2.2).flatMap fun r5 =>
    (component r5).flatMap fun p3 =>
    (wsSplits p3.2).flatMap fun r7 =>
    (optAlpha r7).flatMap fun p4 =>
    if endParen p4.2 then [(p1.1, p2.1, p3.1, p4.1)] else []).head?

/-- List-level `endsWith`. -/
def endsWithLit (s p : List Char) : Bool := startsWithL s.reverse p.reverse

/-- JavaScript truncation toward zero on a real. -/
noncomputable def jsTrunc (x : ℝ) : ℤ := if x < 0 then ⌈x⌉ else ⌊x⌋

/-- JavaScript `%` on reals: truncated remainder. -/
noncomputable def jsModR (x y : ℝ) : ℝ := x - y * (jsTrunc (x / y) : ℝ)

/-- The `hueToRgb` helper of the hsl parser. -/
noncomputable def hueToRgb (p q t : ℝ) : ℝ :=
  let t1 := if t < 0 then t + 1 else t
  let t2 := if t1 > 1 then t1 - 1 else t1
  if t2 < 1 / 6 then p + (q - p) * 6 * t2
  else if t2 < 1 / 2 then q
  else if t2 < 2 / 3 then p + (q - p) * (2 / 3 - t2) * 6
  else p

/-- Functional hsl()/hsla() parser: hue normalized into [0,360) after unit
conversion (the `rad` case is real-valued because of π), saturation and
lightness clamped percentages, standard hue interpolation. -/
noncomputable def parseHsl (str : String) : Option RGBA :=
  match hslCaptures str.data with
  | none => none
  | some (m1, m2, m3, m4) =>
    match parseFloatQ m1, parseFloatQ m2, parseFloatQ m3 with
    | some hq, some sv, some lv =>
      let h0 : ℝ := (hq : ℝ)
      let h1 : ℝ :=
        if endsWithLit m1 ['r', 'a', 'd'] then h0 * 180 / Real.pi
        else if endsWithLit m1 ['t', 'u', 'r', 'n'] then h0 * 360
        else h0
      let h : ℝ := jsModR (jsModR h1 360 + 360) 360
      let s : ℝ := ((min 100 (max 0 sv) : ℚ) : ℝ) / 100
      let l : ℝ := ((min 100 (max 0 lv) : ℚ) : ℝ) / 100
      let aOpt : Option ℚ := match m4 with
        | none => some 1
        | some v =>
          (if v.getLast? = some '%' then (parseFloatQ v).map (· / 100)
           else parseFloatQ v).map (fun a => min 1 (max 0 a))
      match aOpt with
      | some a =>
        if s = 0 then
          some ⟨((jsRoundR (l * 255) : ℤ) : ℚ), ((jsRoundR (l * 255) : ℤ) : ℚ),
            ((jsRoundR (l * 255) : ℤ) : ℚ), a⟩
        else
          let q := if l < 1 / 2 then l * (1 + s) else l + s - l * s
          let p := 2 * l - q
          let r := hueToRgb p q (h / 360 + 1 / 3)
          let g := hueToRgb p q (h / 360)
          let b := hueToRgb p q (h / 360 - 1 / 3)
          some ⟨((jsRoundR (r * 255) : ℤ) : ℚ), ((jsRoundR (g * 255) : ℤ) : ℚ),
            ((jsRoundR (b * 255) : ℤ) : ℚ), a⟩
      | none => none
    | _, _, _ => none

/-! ### Dispatching parser (src/color/parse.ts, parseColor) -/

/-- The bare-hex test `/^[0-9a-f]{3,8}$/i`. -/
def bareHexTest (l : List Char) : Bool :=
  3 ≤ l.length ∧ l.length ≤ 8 ∧ l.all isHexDigitChar

/-- Syntax-driven dispatch: `#` to the hex parser, `rgb`/`hsl` prefixes
(case-insensitive) to the functional parsers, bare hex with `#` prepended,
otherwise `none`. -/
noncomputable def parseColor (input : String) : Option RGBA :=
  let trimmed := jsTrim input
  if startsWithL trimmed.data ['#'] then parseHex trimmed
  else if startsWithL (jsToLower trimmed).data ['r', 'g', 'b'] then parseRgb trimmed
  else if startsWithL (jsToLower trimmed).data ['h', 's', 'l'] then parseHsl trimmed
  else if bareHexTest trimmed.data then parseHex ⟨'#' :: trimmed.data⟩
  else none

/-! ### Color space conversion (src/color/convert.ts) -/

/-- RGBA to HSLA: max/min decomposition, hue by dominant channel with the
6-way wraparound, h/s/l rounded to integer degrees/percent. -/
def rgbaToHsla (rgba : RGBA) : HSLA :=
  let r := rgba.r / 255
  let g := rgba.g / 255
  let b := rgba.b / 255
  let mx := max r (max g b)
  let mn := min r (min g b)
  let l := (mx + mn) / 2
  let d := mx - mn
  let s : ℚ := if mx ≠ mn then (if l > 1/2 then d / (2 - mx - mn) else d / (mx + mn)) else 0
  let h : ℚ :=
    if mx ≠ mn then
      (if mx = r then ((g - b) / d + (if g < b then 6 else 0)) / 6
       else if mx = g then ((b - r) / d + 2) / 6
       else if mx = b then ((r - g) / d + 4) / 6
       else 0)
    else 0
  ⟨jsRound (h * 360), jsRound (s * 100), jsRound (l * 100), rgba.a⟩

/-- Piecewise sRGB-to-linear curve used by the OKLab conversion
(threshold 0.04045). -/
noncomputable def srgbToLinear (c : ℚ) : ℝ :=
  let x : ℝ := (c : ℝ) / 255
  if x ≤ 0.04045 then x / 12.92 else ((x + 0.055) / 1.055) ^ (2.4 : ℝ)

/-- Real cube root (`Math.cbrt`), defined for negative arguments as well. -/
noncomputable def cbrtR (x : ℝ) : ℝ :=
  if x < 0 then -((-x) ^ ((1 : ℝ) / 3)) else x ^ ((1 : ℝ) / 3)

/-- RGBA to OKLab via the fixed linear, cube-root, linear transform. -/
noncomputable def rgbaToOklab (rgba : RGBA) : OKLab :=
  let r := srgbToLinear rgba.r
  let g := srgbToLinear rgba.g
  let b := srgbToLinear rgba.b
  let lp := 0.4122214708 * r + 0.5363325363 * g + 0.0514459929 * b
  let mp := 0.2119034982 * r + 0.6806995451 * g + 0.1073969566 * b
  let sp := 0.0883024619 * r + 0.2817188376 * g + 0.6299787005 * b
  let l := cbrtR lp
  let m := cbrtR mp
  let s := cbrtR sp
  ⟨0.2104542553 * l + 0.793617785 * m - 0.0040720468 * s,
   1.9779984951 * l - 2.428592205 * m + 0.4505937099 * s,
   0.0259040371 * l + 0.7827717662 * m - 0.808675766 * s⟩

/-- Two-argument arctangent (`Math.atan2`), via the complex argument. -/
noncomputable def atan2R (y x : ℝ) : ℝ := Complex.arg ⟨x, y⟩

/-- OKLab to OKLCH: Cartesian to polar, hue normalized to [0,360). -/
noncomputable def oklabToOklch (lab : OKLab) : OKLCH :=
  let C := Real.sqrt (lab.a * lab.a + lab.b * lab.b)
  let h0 := atan2R lab.b lab.a * 180 / Real.pi
  ⟨lab.L, C, if h0 < 0 then h0 + 360 else h0⟩

/-- Perceptual distance: Euclidean distance in OKLab. -/
noncomputable def colorDistance (x y : OKLab) : ℝ :=
  Real.sqrt ((x.L - y.L) * (x.L - y.L) + (x.a - y.a) * (x.a - y.a) +
    (x.b - y.b) * (x.b - y.b))

/-- Aggregate normalization: parse, then derive every representation.
The source throws `Invalid color format` on parse failure; `none` models
that failure. -/
noncomputable def normalizeColor (input : String) : Option NormalizedColor :=
  match parseColor input with
  | none => none
  | some rgba =>
    some { input := input, rgba := rgba, hex := rgbaToHex rgba, hsla := rgbaToHsla rgba,
           oklab := rgbaToOklab rgba, oklch := oklabToOklch (rgbaToOklab rgba) }

/-! ### Contrast engine (src/color/contrast.ts) -/

/-- Per-channel WCAG sRGB-to-linear curve (threshold 0.03928). -/
noncomputable def srgbToLuminanceChannel (c : ℚ) : ℝ :=
  let srgb : ℝ := (c : ℝ) / 255
  if srgb ≤ 0.03928 then srgb / 12.92 else ((srgb + 0.055) / 1.055) ^ (2.4 : ℝ)

/-- WCAG relative luminance with the fixed weighting coefficients. -/
noncomputable def getRelativeLuminance (rgba : RGBA) : ℝ :=
  0.2126 * srgbToLuminanceChannel rgba.r + 0.7152 * srgbToLuminanceChannel rgba.g +
    0.0722 * srgbToLuminanceChannel rgba.b

/-- WCAG contrast ratio `(lighter + 0.05) / (darker + 0.05)`. -/
noncomputable def getContrastRatio (color1 color2 : RGBA) : ℝ :=
  let l1 := getRelativeLuminance color1
  let l2 := getRelativeLuminance color2
  let lighter := max l1 l2
  let darker := min l1 l2
  (lighter + 0.05) / (darker + 0.05)

/-- Dark text constant. -/
def DARK_TEXT : String := "#111111"

/-- Light text constant. -/
def LIGHT_TEXT : String := "#FFFFFF"

/-- Cached RGBA of the dark text reference. -/
def darkTextRgba : RGBA := ⟨17, 17, 17, 1⟩

/-- Cached RGBA of the light text reference. -/
def lightTextRgba : RGBA := ⟨255, 255, 255, 1⟩

/-- Best text color for a background: the reference with the higher
contrast ratio; unparseable backgrounds default to dark text. -/
noncomputable def computeTextColor (bgHex : String) : String :=
  match parseColor bgHex with
  | none => DARK_TEXT
  | some bg =>
    if getContrastRatio bg lightTextRgba > getContrastRatio bg darkTextRgba then LIGHT_TEXT
    else DARK_TEXT

/-! ### Color naming engine (src/color/name.ts)

The static dataset `src/data/colors.ts` (COLOR_NAMES and the
HUE_FAMILIES / LIGHTNESS_MODIFIERS / CHROMA_MODIFIERS bucket tables) is not
part of the sources; per the spec it is pure ordered data.  The engine is
therefore parametrized by the pre-computed entry cache and the three
tables, and the theorems quantify over them or instantiate them with
entries modelled from the spec. -/

/-- A pre-computed reference dataset entry, as built by `getColorCache`. -/
structure ColorEntry where
  hex : String
  name : String
  color : NormalizedColor

/-- Naming strategies. -/
inductive NamingStrategy where
  | auto
  | none
  | provided
deriving DecidableEq

/-- Linear scan for the nearest entry by OKLab distance with a strict `<`
update; the initial accumulator is (`"Unknown"`, `Infinity`), modelled with
`WithTop ℝ`. -/
noncomputable def findNearestColor (cache : List ColorEntry) (color : NormalizedColor) :
    String × WithTop ℝ :=
  cache.foldl
    (fun nearest entry =>
      if ((colorDistance color.oklab entry.color.oklab : ℝ) : WithTop ℝ) < nearest.2 then
        (entry.name, ((colorDistance color.oklab entry.color.oklab : ℝ) : WithTop ℝ))
      else nearest)
    ("Unknown", ⊤)

/-- JavaScript `String.prototype.replace` with a single-character pattern:
drop the first occurrence. -/
def replaceFirst (c : Char) : List Char → List Char
  | [] => []
  | x :: t => if x = c then t else x :: replaceFirst c t

/-- The `family.replace('2', '')` clean-up applied to hue family labels. -/
def stripTwo (s : String) : String := ⟨replaceFirst '2' s.data⟩

/-- Hue family lookup: first `[start, end)` range containing the hue wins;
`"Red"` is the fall-through default. -/
noncomputable def getHueFamily : List (String × ℚ × ℚ) → ℝ → String
  | [], _ => "Red"
  | (fam, st, en) :: rest, hue =>
    if (st : ℝ) ≤ hue ∧ hue < (en : ℝ) then stripTwo fam else getHueFamily rest hue

/-- Lightness modifier lookup over ordered `[min, max)` buckets. -/
noncomputable def getLightnessModifier : List (ℚ × ℚ × String) → ℝ → String
  | [], _ => ""
  | (mn, mx, m) :: rest, L =>
    if (mn : ℝ) ≤ L ∧ L < (mx : ℝ) then m else getLightnessModifier rest L

/-- Chroma modifier lookup over ordered `[min, max)` buckets. -/
noncomputable def getChromaModifier : List (ℚ × ℚ × String) → ℝ → String
  | [], _ => ""
  | (mn, mx, m) :: rest, C =>
    if (mn : ℝ) ≤ C ∧ C < (mx : ℝ) then m else getChromaModifier rest C

/-- Fallback name synthesis from OKLCH: achromatic short-circuit below
chroma 0.02, otherwise `[lightness] [chroma] hueFamily` with empty and
literal-"Gray" chroma modifiers omitted. -/
noncomputable def generateFallbackName (hueFamilies : List (String × ℚ × ℚ))
    (lightnessMods chromaMods : List (ℚ × ℚ × String)) (color : NormalizedColor) : String :=
  let L := color.oklch.L
  let C := color.oklch.C
  let h := color.oklch.h
  if C < 0.02 then
    if L < 0.15 then "Black"
    else if L > 0.95 then "White"
    else
      let lMod := getLightnessModifier lightnessMods L
      if lMod ≠ "" then lMod ++ " Gray" else "Gray"
  else
    let hueFamily := getHueFamily hueFamilies h
    let lightMod := getLightnessModifier lightnessMods L
    let chromaMod := getChromaModifier chromaMods C
    let parts : List String :=
      (if lightMod ≠ "" then [lightMod] else []) ++
      (if chromaMod ≠ "" ∧ chromaMod ≠ "Gray" then [chromaMod] else []) ++
      [hueFamily]
    String.intercalate " " parts

/-- Distance threshold below which a dataset name is used. -/
noncomputable def MATCH_THRESHOLD : ℝ := 0.15

/-- Lookup of a key in a provided-names record (insertion-ordered entries). -/
def recordGet (m : List (String × String)) (k : String) : Option String :=
  (m.find? (fun e => e.1 == k)).map (·.2)

/-- First entry whose upper-cased key equals the target, as scanned by the
case-insensitive fallback loop. -/
def recordFindCI (m : List (String × String)) (k : String) : Option String :=
  (m.find? (fun e => jsToUpper e.1 == k)).map (·.2)

/-- Single-color naming: `none` short-circuits to the empty string;
`provided` tries a truthy exact lookup of the upper-cased canonical hex,
then the case-insensitive scan, then falls through to `auto`; `auto` uses
the nearest dataset name when its distance beats the threshold and the
synthesized fallback name otherwise. -/
noncomputable def nameColor (cache : List ColorEntry) (hueFamilies : List (String × ℚ × ℚ))
    (lightnessMods chromaMods : List (ℚ × ℚ × String)) (color : NormalizedColor)
    (strategy : NamingStrategy) (providedNames : Option (List (String × String))) : String :=
  if strategy = NamingStrategy.none then ""
  else
    let autoName :=
      let nearest := findNearestColor cache color
      if nearest.2 < ((MATCH_THRESHOLD : ℝ) : WithTop ℝ) then nearest.1
      else generateFallbackName hueFamilies lightnessMods chromaMods color
    if strategy = NamingStrategy.provided then
      match providedNames with
      | Option.none => autoName
      | Option.some m =>
        let normalized := jsToUpper color.hex
        let exactTruthy : Option String :=
          match recordGet m normalized with
          | Option.some v => if v = "" then Option.none else Option.some v
          | Option.none => Option.none
        match exactTruthy with
        | Option.some v => v
        | Option.none =>
          match recordFindCI m normalized with
          | Option.some w => w
          | Option.none => autoName
    else autoName

/-- The uniqueness-suffixing loop of `nameColors`, with the occurrence
`Map` modelled as a counting function. -/
def uniquifyGo : List String → (String → ℕ) → List String
  | [], _ => []
  | n :: rest, counts =>
    if n = "" then "" :: uniquifyGo rest counts
    else
      let count := counts n
      let updated : String → ℕ := fun k => if k = n then count + 1 else counts k
      (if count = 0 then n else n ++ " " ++ toString (count + 1)) :: uniquifyGo rest updated

/-- Uniqueness suffixing applied to a list of base names. -/
def uniquifyNames (names : List String) : List String := uniquifyGo names (fun _ => 0)

/-- Batch naming: name each color independently, then suffix duplicates. -/
noncomputable def nameColors (cache : List ColorEntry) (hueFamilies : List (String × ℚ × ℚ))
    (lightnessMods chromaMods : List (ℚ × ℚ × String)) (colors : List NormalizedColor)
    (strategy : NamingStrategy) (providedNames : Option (List (String × String))) :
    List String :=
  uniquifyNames
    (colors.map (fun c => nameColor cache hueFamilies lightnessMods chromaMods c strategy
      providedNames))

/-- Construction of a `NormalizedColor` from an already-parsed RGBA, as the
normalize step does after a successful parse. -/
noncomputable def mkNormalized (input : String) (rgba : RGBA) : NormalizedColor :=
  { input := input, rgba := rgba, hex := rgbaToHex rgba, hsla := rgbaToHsla rgba,
    oklab := rgbaToOklab rgba, oklch := oklabToOklch (rgbaToOklab rgba) }

/-- Modelled from the spec: the reference dataset `src/data/colors.ts`
(COLOR_NAMES) is not among the sources; the spec and the repository tests
record that it maps `#FF0000` to "Red".  This is the normalized form of
that dataset color. -/
noncomputable def redColor : NormalizedColor := mkNormalized "#FF0000" ⟨255, 0, 0, 1⟩

/-- Modelled from the spec: the pre-computed dataset entry for `#FF0000`,
built the way `getColorCache` does. -/
noncomputable def redEntry : ColorEntry :=
  { hex := "#FF0000", name := "Red", color := redColor }

/-! ## Character class facts -/

theorem ne_of_pred_tf {p : Char → Bool} {c d : Char} (h1 : p c = true) (h2 : p d = false) :
    c ≠ d := by
  intro he
  rw [he, h2] at h1
  exact Bool.noConfusion h1

theorem digit_not_ws {c : Char} (h : isDigitChar c = true) : isJsWs c = false := by
  cases hw : isJsWs c with
  | false => rfl
  | true =>
    exfalso
    simp only [isJsWs, decide_eq_true_eq] at hw
    rcases hw with rfl | rfl | rfl | rfl | rfl | rfl <;> exact absurd h (by decide)

theorem hex_not_ws {c : Char} (h : isHexDigitChar c = true) : isJsWs c = false := by
  cases hw : isJsWs c with
  | false => rfl
  | true =>
    exfalso
    simp only [isJsWs, decide_eq_true_eq] at hw
    rcases hw with rfl | rfl | rfl | rfl | rfl | rfl <;> exact absurd h (by decide)

theorem digit_is_hex {c : Char} (h : isDigitChar c = true) : isHexDigitChar c = true := by
  simp [isHexDigitChar, h]

/-! ## JavaScript parseInt evaluation lemmas -/

theorem jsParseInt16_two_hex {c1 c2 : Char} (h1 : isHexDigitChar c1 = true)
    (h2 : isHexDigitChar c2 = true) :
    jsParseInt16 [c1, c2] = some (hexListVal [c1, c2]) := by
  have hw1 : isJsWs c1 = false := hex_not_ws h1
  have hm : c1 ≠ '-' := ne_of_pred_tf h1 (by decide)
  have hp : c1 ≠ '+' := ne_of_pred_tf h1 (by decide)
  have hx : c2 ≠ 'x' := ne_of_pred_tf h2 (by decide)
  have hX : c2 ≠ 'X' := ne_of_pred_tf h2 (by decide)
  simp [jsParseInt16, List.dropWhile_cons, hw1, hm, hp, hx, hX, List.takeWhile_cons, h1, h2]

theorem jsParseInt16_dup_nonhex {c : Char} (h : isHexDigitChar c = false) :
    jsParseInt16 [c, c] = none := by
  by_cases hw : isJsWs c = true
  · simp [jsParseInt16, List.dropWhile_cons, hw]
  · replace hw : isJsWs c = false := by simpa using hw
    have hz : c ≠ '0' := fun he => by rw [he] at h; exact absurd h (by decide)
    by_cases hm : c = '-'
    · subst hm
      with_unfolding_all decide
    · by_cases hp : c = '+'
      · subst hp
        with_unfolding_all decide
      · simp [jsParseInt16, List.dropWhile_cons, hw, hm, hp, hz, List.takeWhile_cons, h]

/-! ## Claim C5: accepted hex lengths and digit validation -/

theorem hexChannels3_none₁ {g b : Option ℤ} : hexChannels3 none g b = none := rfl

theorem hexChannels3_none₂ {r b : Option ℤ} : hexChannels3 r none b = none := by
  cases r <;> rfl

theorem hexChannels3_none₃ {r g : Option ℤ} : hexChannels3 r g none = none := by
  cases r <;> cases g <;> rfl

theorem hexChannels4_none₁ {g b a : Option ℤ} : hexChannels4 none g b a = none := rfl

theorem hexChannels4_none₂ {r b a : Option ℤ} : hexChannels4 r none b a = none := by
  cases r <;> rfl

theorem hexChannels4_none₃ {r g a : Option ℤ} : hexChannels4 r g none a = none := by
  cases r <;> cases g <;> rfl

theorem hexChannels4_none₄ {r g b : Option ℤ} : hexChannels4 r g b none = none := by
  cases r <;> cases g <;> cases b <;> rfl

theorem parseHexList_other_length {l : List Char}
    (h : ¬(l.length = 3 ∨ l.length = 4 ∨ l.length = 6 ∨ l.length = 8)) :
    parseHexList l = none := by
  rcases l with _ | ⟨a, _ | ⟨b, _ | ⟨c, _ | ⟨d, _ | ⟨e, _ | ⟨f, _ | ⟨g, _ | ⟨hh, _ | ⟨i, t⟩⟩⟩⟩⟩⟩⟩⟩⟩
  · rfl
  · rfl
  · rfl
  · exact absurd (by simp) h
  · exact absurd (by simp) h
  · rfl
  · exact absurd (by simp) h
  · rfl
  · exact absurd (by simp) h
  · rfl

theorem parseHexList_all_hex {l : List Char}
    (hlen : l.length = 3 ∨ l.length = 4 ∨ l.length = 6 ∨ l.length = 8)
    (hhex : ∀ c ∈ l, isHexDigitChar c = true) :
    (parseHexList l).isSome = true := by
  rcases l with _ | ⟨a, _ | ⟨b, _ | ⟨c, _ | ⟨d, _ | ⟨e, _ | ⟨f, _ | ⟨g, _ | ⟨hh, _ | ⟨i, t⟩⟩⟩⟩⟩⟩⟩⟩⟩ <;>
    simp only [List.length_nil, List.length_cons] at hlen <;>
    try omega
  · simp only [List.mem_cons, forall_eq_or_imp] at hhex
    obtain ⟨ha, hb, hc, -⟩ := hhex
    rw [parseHexList, jsParseInt16_two_hex ha ha, jsParseInt16_two_hex hb hb,
      jsParseInt16_two_hex hc hc]
    rfl
  · simp only [List.mem_cons, forall_eq_or_imp] at hhex
    obtain ⟨ha, hb, hc, hd, -⟩ := hhex
    rw [parseHexList, jsParseInt16_two_hex ha ha, jsParseInt16_two_hex hb hb,
      jsParseInt16_two_hex hc hc, jsParseInt16_two_hex hd hd]
    rfl
  · simp only [List.mem_cons, forall_eq_or_imp] at hhex
    obtain ⟨ha, hb, hc, hd, he, hf, -⟩ := hhex
    rw [parseHexList, jsParseInt16_two_hex ha hb, jsParseInt16_two_hex hc hd,
      jsParseInt16_two_hex he hf]
    rfl
  · simp only [List.mem_cons, forall_eq_or_imp] at hhex
    obtain ⟨ha, hb, hc, hd, he, hf, hg, hhh, -⟩ := hhex
    rw [parseHexList, jsParseInt16_two_hex ha hb, jsParseInt16_two_hex hc hd,
      jsParseInt16_two_hex he hf, jsParseInt16_two_hex hg hhh]
    rfl

theorem parseHexList_shorthand_nonhex {l : List Char}
    (hlen : l.length = 3 ∨ l.length = 4)
    (hbad : ∃ c ∈ l, isHexDigitChar c = false) :
    parseHexList l = none := by
  obtain ⟨c0, hmem, hnon⟩ := hbad
  have hdup := jsParseInt16_dup_nonhex hnon
  rcases l with _ | ⟨a, _ | ⟨b, _ | ⟨c, _ | ⟨d, _ | ⟨e, t⟩⟩⟩⟩⟩ <;>
    simp only [List.length_nil, List.length_cons] at hlen <;>
    try omega
  · simp only [List.mem_cons, List.not_mem_nil, or_false] at hmem
    rcases hmem with rfl | rfl | rfl
    · rw [parseHexList, hdup, hexChannels3_none₁]
    · rw [parseHexList, hdup, hexChannels3_none₂]
    · rw [parseHexList, hdup, hexChannels3_none₃]
  · simp only [List.mem_cons, List.not_mem_nil, or_false] at hmem
    rcases hmem with rfl | rfl | rfl | rfl
    · rw [parseHexList, hdup, hexChannels4_none₁]
    · rw [parseHexList, hdup, hexChannels4_none₂]
    · rw [parseHexList, hdup, hexChannels4_none₃]
    · rw [parseHexList, hdup, hexChannels4_none₄]

/-- Claim C5 (amended): the hex parser accepts exactly 3, 4, 6, or 8
characters after stripping a leading `#`; any all-hex input of an accepted
length is accepted; and in the 3- and 4-digit shorthand forms any non-hex
character invalidates the input.  (In the 6/8-digit forms a non-hex
character in the second position of a pair is truncated by `parseInt`
rather than invalidating, see the counterexample.) -/
theorem parseHex_length_and_digit_validation (s : String) :
    (¬((hexCleaned s).length = 3 ∨ (hexCleaned s).length = 4 ∨ (hexCleaned s).length = 6 ∨
        (hexCleaned s).length = 8) → parseHex s = none) ∧
    (((hexCleaned s).length = 3 ∨ (hexCleaned s).length = 4 ∨ (hexCleaned s).length = 6 ∨
        (hexCleaned s).length = 8) → (∀ c ∈ hexCleaned s, isHexDigitChar c = true) →
      (parseHex s).isSome = true) ∧
    (((hexCleaned s).length = 3 ∨ (hexCleaned s).length = 4) →
      (∃ c ∈ hexCleaned s, isHexDigitChar c = false) → parseHex s = none) := by
  refine ⟨fun h => ?_, fun h1 h2 => ?_, fun h1 h2 => ?_⟩
  · exact parseHexList_other_length h
  · exact parseHexList_all_hex h1 h2
  · exact parseHexList_shorthand_nonhex h1 h2

/-- Claim C5 counterexample: `#1G2345` has an accepted length (6 digits)
and contains the non-hexadecimal character `G`, yet `parseHex` accepts it,
because JavaScript `parseInt("1G", 16)` truncates to 1 instead of
returning NaN. -/
theorem parseHex_claim_counterexample :
    isHexDigitChar 'G' = false ∧ (hexCleaned "#1G2345").length = 6 ∧
      parseHex "#1G2345" = some ⟨1, 35, 69, 1⟩ := by
  with_unfolding_all decide

/-- Witness instantiating the amended C5 theorem at concrete inputs. -/
theorem parseHex_length_witness :
    parseHex "#12" = none ∧ (parseHex "#A1B2C3").isSome = true ∧ parseHex "#1G3" = none :=
  ⟨(parseHex_length_and_digit_validation "#12").1 (by decide),
   (parseHex_length_and_digit_validation "#A1B2C3").2.1 (by decide) (by decide),
   (parseHex_length_and_digit_validation "#1G3").2.2 (by decide) ⟨'G', by decide, by decide⟩⟩

/-! ## Claim C6: ranges of the HSLA conversion -/

theorem jsRound_bounds {q : ℚ} {lo hi : ℤ} (h1 : (lo : ℚ) ≤ q) (h2 : q ≤ (hi : ℚ)) :
    lo ≤ jsRound q ∧ jsRound q ≤ hi := by
  unfold jsRound
  constructor
  · have hle : (lo : ℚ) ≤ q + 1 / 2 := by linarith
    calc lo = ⌊(lo : ℚ)⌋ := (Int.floor_intCast lo).symm
    _ ≤ ⌊q + 1 / 2⌋ := Int.floor_le_floor hle
  · rw [Int.floor_le_iff]
    push_cast
    linarith

theorem jsRound_nonneg_of {q : ℚ} (h : 0 ≤ q) : 0 ≤ jsRound q := by
  rw [jsRound, Int.le_floor]
  push_cast
  linarith

theorem jsRound_le_of {q : ℚ} {n : ℤ} (h : q ≤ (n : ℚ)) : jsRound q ≤ n := by
  rw [jsRound, Int.floor_le_iff]
  push_cast
  linarith

/-- Claim C6 counterexample: the RGBA value (255, 0, 1) has hue just below
360 degrees, which `Math.round` takes to exactly 360, so the produced hue
is not in the half-open range [0, 360). -/
theorem rgbaToHsla_hue_360_counterexample :
    rgbaToHsla ⟨255, 0, 1, 1⟩ = ⟨360, 100, 50, 1⟩ ∧
      ¬((rgbaToHsla ⟨255, 0, 1, 1⟩).h < 360) := by
  constructor
  · with_unfolding_all decide
  · with_unfolding_all decide

set_option maxHeartbeats 1000000 in
/-- Claim C6 (amended): for channels in [0,255] the converted hue is an
integer in the closed range [0,360] (360 is attainable by rounding, see
the counterexample), s and l are integers in [0,100], and alpha is passed
through unchanged. -/
theorem rgbaToHsla_ranges (rgba : RGBA)
    (hr : 0 ≤ rgba.r ∧ rgba.r ≤ 255) (hg : 0 ≤ rgba.g ∧ rgba.g ≤ 255)
    (hb : 0 ≤ rgba.b ∧ rgba.b ≤ 255) :
    0 ≤ (rgbaToHsla rgba).h ∧ (rgbaToHsla rgba).h ≤ 360 ∧
    0 ≤ (rgbaToHsla rgba).s ∧ (rgbaToHsla rgba).s ≤ 100 ∧
    0 ≤ (rgbaToHsla rgba).l ∧ (rgbaToHsla rgba).l ≤ 100 ∧
    (rgbaToHsla rgba).a = rgba.a := by
  obtain ⟨hr0, hr255⟩ := hr
  obtain ⟨hg0, hg255⟩ := hg
  obtain ⟨hb0, hb255⟩ := hb
  simp only [rgbaToHsla]
  set r := rgba.r / 255 with hrd
  set g := rgba.g / 255 with hgd
  set b := rgba.b / 255 with hbd
  have hr01 : 0 ≤ r ∧ r ≤ 1 :=
    ⟨div_nonneg hr0 (by norm_num), by rw [hrd, div_le_one (by norm_num : (0:ℚ) < 255)]; exact hr255⟩
  have hg01 : 0 ≤ g ∧ g ≤ 1 :=
    ⟨div_nonneg hg0 (by norm_num), by rw [hgd, div_le_one (by norm_num : (0:ℚ) < 255)]; exact hg255⟩
  have hb01 : 0 ≤ b ∧ b ≤ 1 :=
    ⟨div_nonneg hb0 (by norm_num), by rw [hbd, div_le_one (by norm_num : (0:ℚ) < 255)]; exact hb255⟩
  set mx := max r (max g b) with hmxd
  set mn := min r (min g b) with hmnd
  have hmx0 : 0 ≤ mx := le_trans hr01.1 (le_max_left _ _)
  have hmx1 : mx ≤ 1 := max_le hr01.2 (max_le hg01.2 hb01.2)
  have hmn0 : 0 ≤ mn := le_min hr01.1 (le_min hg01.1 hb01.1)
  have hmn1 : mn ≤ 1 := le_trans (min_le_left _ _) hr01.2
  have hmnmx : mn ≤ mx := le_trans (min_le_left _ _) (le_max_left _ _)
  have hrmem : mn ≤ r ∧ r ≤ mx := ⟨min_le_left _ _, le_max_left _ _⟩
  have hgmem : mn ≤ g ∧ g ≤ mx :=
    ⟨le_trans (min_le_right _ _) (min_le_left _ _), le_trans (le_max_left _ _) (le_max_right _ _)⟩
  have hbmem : mn ≤ b ∧ b ≤ mx :=
    ⟨le_trans (min_le_right _ _) (min_le_right _ _),
     le_trans (le_max_right _ _) (le_max_right _ _)⟩
  have hl01 : 0 ≤ (mx + mn) / 2 ∧ (mx + mn) / 2 ≤ 1 := by
    constructor
    · positivity
    · linarith
  by_cases hne : mx ≠ mn
  · have hmnlt : mn < mx := lt_of_le_of_ne hmnmx (fun h => hne h.symm)
    have hd : 0 < mx - mn := by linarith
    have hdivlo : ∀ x y : ℚ, mn ≤ x → y ≤ mx → (-1 : ℚ) ≤ (x - y) / (mx - mn) := by
      intro x y hx hy
      rw [le_div_iff hd]
      linarith
    have hdivhi : ∀ x y : ℚ, x ≤ mx → mn ≤ y → (x - y) / (mx - mn) ≤ 1 := by
      intro x y hx hy
      rw [div_le_one hd]
      linarith
    have hhval : 0 ≤ (if mx = r then ((g - b) / (mx - mn) + if g < b then 6 else 0) / 6
          else if mx = g then ((b - r) / (mx - mn) + 2) / 6
          else if mx = b then ((r - g) / (mx - mn) + 4) / 6
          else 0) ∧
        (if mx = r then ((g - b) / (mx - mn) + if g < b then 6 else 0) / 6
          else if mx = g then ((b - r) / (mx - mn) + 2) / 6
          else if mx = b then ((r - g) / (mx - mn) + 4) / 6
          else 0) ≤ 1 := by
      by_cases hxr : mx = r
      · rw [if_pos hxr]
        by_cases hglb : g < b
        · rw [if_pos hglb]
          have h1 := hdivlo g b hgmem.1 hbmem.2
          have h2 : (g - b) / (mx - mn) ≤ 0 :=
            div_nonpos_of_nonpos_of_nonneg (by linarith) (le_of_lt hd)
          constructor <;> linarith
        · rw [if_neg hglb]
          have h1 : (0 : ℚ) ≤ (g - b) / (mx - mn) :=
            div_nonneg (by linarith [not_lt.mp hglb]) (le_of_lt hd)
          have h2 := hdivhi g b hgmem.2 hbmem.1
          constructor <;> linarith
      · rw [if_neg hxr]
        by_cases hxg : mx = g
        · rw [if_pos hxg]
          have h1 := hdivlo b r hbmem.1 hrmem.2
          have h2 := hdivhi b r hbmem.2 hrmem.1
          constructor <;> linarith
        · rw [if_neg hxg]
          by_cases hxb : mx = b
          · rw [if_pos hxb]
            have h1 := hdivlo r g hrmem.1 hgmem.2
            have h2 := hdivhi r g hrmem.2 hgmem.1
            constructor <;> linarith
          · rw [if_neg hxb]
            norm_num
    have hsval : 0 ≤ (if (mx + mn) / 2 > 1 / 2 then (mx - mn) / (2 - mx - mn)
          else (mx - mn) / (mx + mn)) ∧
        (if (mx + mn) / 2 > 1 / 2 then (mx - mn) / (2 - mx - mn)
          else (mx - mn) / (mx + mn)) ≤ 1 := by
      by_cases hlgt : (mx + mn) / 2 > 1 / 2
      · rw [if_pos hlgt]
        have hden : 0 < 2 - mx - mn := by
          by_contra hcon
          push_neg at hcon
          have hmx1' : mx = 1 := le_antisymm hmx1 (by linarith)
          have hmn1' : mn = 1 := le_antisymm hmn1 (by linarith)
          exact hne (by rw [hmx1', hmn1'])
        constructor
        · exact div_nonneg (by linarith) (le_of_lt hden)
        · rw [div_le_one hden]
          linarith
      · rw [if_neg hlgt]
        have hden : 0 < mx + mn := by
          by_contra hcon
          push_neg at hcon
          have hmx0' : mx = 0 := le_antisymm (by linarith) hmx0
          have hmn0' : mn = 0 := le_antisymm (by linarith) hmn0
          exact hne (by rw [hmx0', hmn0'])
        constructor
        · exact div_nonneg (by linarith) (le_of_lt hden)
        · rw [div_le_one hden]
          linarith
    simp only [if_pos hne]
    refine ⟨jsRound_nonneg_of (by nlinarith [hhval.1]),
      jsRound_le_of (by push_cast; nlinarith [hhval.2]),
      jsRound_nonneg_of (by nlinarith [hsval.1]),
      jsRound_le_of (by push_cast; nlinarith [hsval.2]),
      jsRound_nonneg_of (by nlinarith [hl01.1]),
      jsRound_le_of (by push_cast; nlinarith [hl01.2]), trivial⟩
  · simp only [if_neg hne]
    refine ⟨jsRound_nonneg_of (by norm_num),
      jsRound_le_of (by norm_num),
      jsRound_nonneg_of (by norm_num),
      jsRound_le_of (by norm_num),
      jsRound_nonneg_of (by nlinarith [hl01.1]),
      jsRound_le_of (by push_cast; nlinarith [hl01.2]), trivial⟩

/-- Witness instantiating the amended C6 theorem at a concrete RGBA. -/
theorem rgbaToHsla_ranges_witness :
    0 ≤ (rgbaToHsla ⟨255, 0, 1, 1⟩).h ∧ (rgbaToHsla ⟨255, 0, 1, 1⟩).h ≤ 360 ∧
    0 ≤ (rgbaToHsla ⟨255, 0, 1, 1⟩).s ∧ (rgbaToHsla ⟨255, 0, 1, 1⟩).s ≤ 100 ∧
    0 ≤ (rgbaToHsla ⟨255, 0, 1, 1⟩).l ∧ (rgbaToHsla ⟨255, 0, 1, 1⟩).l ≤ 100 ∧
    (rgbaToHsla ⟨255, 0, 1, 1⟩).a = (1 : ℚ) :=
  rgbaToHsla_ranges ⟨255, 0, 1, 1⟩ (by norm_num) (by norm_num) (by norm_num)

/-! ## Claim C4: hex canonicalization idempotence -/

theorem jsRound_intCast (n : ℤ) : jsRound ((n : ℚ)) = n := by
  rw [jsRound, Int.floor_eq_iff]
  constructor
  · linarith
  · push_cast
    linarith

theorem jsRound_natCast (n : ℕ) : jsRound ((n : ℚ)) = (n : ℤ) := by
  have : ((n : ℚ)) = (((n : ℤ) : ℚ)) := by push_cast; ring
  rw [this, jsRound_intCast]

/-- Channel bytes round-trip: for every byte value, the serialized pair has
two characters, all of them hex digits, and `parseInt(..., 16)` reads the
value back. -/
theorem intHexByte_roundtrip : ∀ n : ℕ, n < 256 →
    (intHexByte ((n : ℕ) : ℤ)).length = 2 ∧
    jsParseInt16 (intHexByte ((n : ℕ) : ℤ)) = some ((n : ℕ) : ℤ) ∧
    ∀ c ∈ intHexByte ((n : ℕ) : ℤ), isHexDigitChar c = true := by
  with_unfolding_all decide

theorem dropWhile_eq_self_of_none {p : Char → Bool} {l : List Char}
    (h : ∀ c ∈ l, p c = false) : l.dropWhile p = l := by
  cases l with
  | nil => rfl
  | cons a t =>
    rw [List.dropWhile_cons, h a (by simp)]
    simp

theorem jsTrimList_eq_self {l : List Char} (h : ∀ c ∈ l, isJsWs c = false) :
    jsTrimList l = l := by
  unfold jsTrimList
  rw [dropWhile_eq_self_of_none h,
    dropWhile_eq_self_of_none (fun c hc => h c (List.mem_reverse.mp hc)),
    List.reverse_reverse]

/-- Claim C4 counterexample: `rgba(0, 0, 0, 0.999)` normalizes to the hex
string `#000000FF` (0.999 × 255 rounds up to 255), but feeding that hex
back through `normalizeColor` yields `#000000`: the re-parsed alpha is
exactly 1, so the alpha pair is dropped and idempotence fails. -/
theorem normalizeColor_hex_not_idempotent :
    Option.map (fun c => c.hex) (normalizeColor "rgba(0, 0, 0, 0.999)") = some "#000000FF" ∧
    Option.map (fun c => c.hex) (normalizeColor "#000000FF") = some "#000000" ∧
    "#000000" ≠ "#000000FF" := by
  refine ⟨?_, ?_, ?_⟩
  · with_unfolding_all decide
  · with_unfolding_all decide
  · with_unfolding_all decide

/-- Claim C4 (amended): re-parsing a serialized hex string reproduces it,
for every RGBA with integer channels in [0,255] and alpha in [0,1] whose
alpha either equals 1 or has its 255-scaled rounding at most 254 (when the
rounding reaches 255 with alpha < 1 the pair `FF` re-parses as alpha
exactly 1 and the pair is dropped, see the counterexample). -/
theorem rgbaToHex_parse_idempotent (rgba : RGBA)
    (hr : ∃ n : ℕ, n ≤ 255 ∧ rgba.r = (n : ℚ))
    (hg : ∃ n : ℕ, n ≤ 255 ∧ rgba.g = (n : ℚ))
    (hbc : ∃ n : ℕ, n ≤ 255 ∧ rgba.b = (n : ℚ))
    (ha0 : 0 ≤ rgba.a) (ha1 : rgba.a ≤ 1)
    (hexc : rgba.a = 1 ∨ jsRound (rgba.a * 255) ≤ 254) :
    ∃ rgba' : RGBA, parseColor (rgbaToHex rgba) = some rgba' ∧
      rgbaToHex rgba' = rgbaToHex rgba := by
  obtain ⟨nr, hnr, hr'⟩ := hr
  obtain ⟨ng, hng, hg'⟩ := hg
  obtain ⟨nb, hnb, hb'⟩ := hbc
  obtain ⟨hlr, hpr, hhr⟩ := intHexByte_roundtrip nr (by omega)
  obtain ⟨hlg, hpg, hhg⟩ := intHexByte_roundtrip ng (by omega)
  obtain ⟨hlb, hpb, hhb⟩ := intHexByte_roundtrip nb (by omega)
  obtain ⟨x1, x2, hx⟩ := List.length_eq_two.mp hlr
  obtain ⟨y1, y2, hy⟩ := List.length_eq_two.mp hlg
  obtain ⟨z1, z2, hz⟩ := List.length_eq_two.mp hlb
  have hbyter : jsNumToHexByte rgba.r = intHexByte ((nr : ℕ) : ℤ) := by
    rw [jsNumToHexByte, hr', jsRound_natCast]
  have hbyteg : jsNumToHexByte rgba.g = intHexByte ((ng : ℕ) : ℤ) := by
    rw [jsNumToHexByte, hg', jsRound_natCast]
  have hbyteb : jsNumToHexByte rgba.b = intHexByte ((nb : ℕ) : ℤ) := by
    rw [jsNumToHexByte, hb', jsRound_natCast]
  rcases hexc with haone | hk254
  · -- fully opaque: six-digit form
    have hser : rgbaToHex rgba = ⟨'#' :: (x1 :: x2 :: y1 :: y2 :: z1 :: z2 :: [])⟩ := by
      rw [rgbaToHex, if_neg (by rw [haone]; exact lt_irrefl 1), hbyter, hbyteg, hbyteb,
        hx, hy, hz]
      rfl
    have hnws : ∀ c ∈ ('#' :: (x1 :: x2 :: y1 :: y2 :: z1 :: z2 :: [])), isJsWs c = false := by
      intro c hc
      simp only [List.mem_cons, List.not_mem_nil, or_false] at hc
      rcases hc with rfl | hc
      · decide
      · rcases hc with rfl | rfl | rfl | rfl | rfl | rfl
        · exact hex_not_ws (hhr c (by rw [hx]; simp))
        · exact hex_not_ws (hhr c (by rw [hx]; simp))
        · exact hex_not_ws (hhg c (by rw [hy]; simp))
        · exact hex_not_ws (hhg c (by rw [hy]; simp))
        · exact hex_not_ws (hhb c (by rw [hz]; simp))
        · exact hex_not_ws (hhb c (by rw [hz]; simp))
    have hparse : parseColor (rgbaToHex rgba) =
        some ⟨((nr : ℤ) : ℚ), ((ng : ℤ) : ℚ), ((nb : ℤ) : ℚ), 1⟩ := by
      rw [hser, parseColor]
      have htrim : jsTrim ⟨'#' :: (x1 :: x2 :: y1 :: y2 :: z1 :: z2 :: [])⟩ =
          ⟨'#' :: (x1 :: x2 :: y1 :: y2 :: z1 :: z2 :: [])⟩ := by
        rw [jsTrim, jsTrimList_eq_self hnws]
      rw [htrim]
      have hstart : startsWithL ('#' :: (x1 :: x2 :: y1 :: y2 :: z1 :: z2 :: [])) ['#'] = true := by
        simp [startsWithL, List.isPrefixOf]
      simp only [hstart, if_pos]
      rw [parseHex]
      have hclean : hexCleaned ⟨'#' :: (x1 :: x2 :: y1 :: y2 :: z1 :: z2 :: [])⟩ =
          x1 :: x2 :: y1 :: y2 :: z1 :: z2 :: [] := rfl
      rw [hclean, parseHexList, ← hx, ← hy, ← hz, hpr, hpg, hpb]
      rfl
    refine ⟨_, hparse, ?_⟩
    rw [hser]
    rw [rgbaToHex]
    have : ¬((⟨((nr : ℤ) : ℚ), ((ng : ℤ) : ℚ), ((nb : ℤ) : ℚ), 1⟩ : RGBA).a < 1) :=
      lt_irrefl 1
    rw [if_neg this]
    have hR : jsNumToHexByte ((⟨((nr : ℤ) : ℚ), ((ng : ℤ) : ℚ), ((nb : ℤ) : ℚ), 1⟩ : RGBA).r) =
        intHexByte ((nr : ℕ) : ℤ) := by
      show jsNumToHexByte ((nr : ℤ) : ℚ) = _
      rw [jsNumToHexByte, jsRound_intCast]
    have hG : jsNumToHexByte ((⟨((nr : ℤ) : ℚ), ((ng : ℤ) : ℚ), ((nb : ℤ) : ℚ), 1⟩ : RGBA).g) =
        intHexByte ((ng : ℕ) : ℤ) := by
      show jsNumToHexByte ((ng : ℤ) : ℚ) = _
      rw [jsNumToHexByte, jsRound_intCast]
    have hB : jsNumToHexByte ((⟨((nr : ℤ) : ℚ), ((ng : ℤ) : ℚ), ((nb : ℤ) : ℚ), 1⟩ : RGBA).b) =
        intHexByte ((nb : ℕ) : ℤ) := by
      show jsNumToHexByte ((nb : ℤ) : ℚ) = _
      rw [jsNumToHexByte, jsRound_intCast]
    rw [hR, hG, hB, hx, hy, hz]
    rfl
  · -- translucent: eight-digit form
    have hane : rgba.a ≠ 1 := by
      intro he
      rw [he, one_mul] at hk254
      have h255 : jsRound ((255 : ℚ)) = 255 := by with_unfolding_all decide
      rw [h255] at hk254
      omega
    have halt : rgba.a < 1 := lt_of_le_of_ne ha1 hane
    set k : ℤ := jsRound (rgba.a * 255) with hkdef
    have hk0 : 0 ≤ k := jsRound_nonneg_of (by positivity)
    have hktn : k = ((k.toNat : ℕ) : ℤ) := (Int.toNat_of_nonneg hk0).symm
    have hktlt : k.toNat < 256 := by omega
    obtain ⟨hla, hpa, hha⟩ := intHexByte_roundtrip k.toNat hktlt
    rw [← hktn] at hla hpa hha
    obtain ⟨w1, w2, hw⟩ := List.length_eq_two.mp hla
    have hbytea : jsNumToHexByte (rgba.a * 255) = intHexByte k := by
      rw [jsNumToHexByte, ← hkdef]
    have hser : rgbaToHex rgba =
        ⟨'#' :: (x1 :: x2 :: y1 :: y2 :: z1 :: z2 :: w1 :: w2 :: [])⟩ := by
      rw [rgbaToHex, if_pos halt, hbyter, hbyteg, hbyteb, hbytea, hx, hy, hz, hw]
      rfl
    have hnws : ∀ c ∈ ('#' :: (x1 :: x2 :: y1 :: y2 :: z1 :: z2 :: w1 :: w2 :: [])),
        isJsWs c = false := by
      intro c hc
      simp only [List.mem_cons, List.not_mem_nil, or_false] at hc
      rcases hc with rfl | hc
      · decide
      · rcases hc with rfl | rfl | rfl | rfl | rfl | rfl | rfl | rfl
        · exact hex_not_ws (hhr c (by rw [hx]; simp))
        · exact hex_not_ws (hhr c (by rw [hx]; simp))
        · exact hex_not_ws (hhg c (by rw [hy]; simp))
        · exact hex_not_ws (hhg c (by rw [hy]; simp))
        · exact hex_not_ws (hhb c (by rw [hz]; simp))
        · exact hex_not_ws (hhb c (by rw [hz]; simp))
        · exact hex_not_ws (hha c (by rw [hw]; simp))
        · exact hex_not_ws (hha c (by rw [hw]; simp))
    have hparse : parseColor (rgbaToHex rgba) =
        some ⟨((nr : ℤ) : ℚ), ((ng : ℤ) : ℚ), ((nb : ℤ) : ℚ), (k : ℚ) / 255⟩ := by
      rw [hser, parseColor]
      have htrim : jsTrim ⟨'#' :: (x1 :: x2 :: y1 :: y2 :: z1 :: z2 :: w1 :: w2 :: [])⟩ =
          ⟨'#' :: (x1 :: x2 :: y1 :: y2 :: z1 :: z2 :: w1 :: w2 :: [])⟩ := by
        rw [jsTrim, jsTrimList_eq_self hnws]
      rw [htrim]
      have hstart : startsWithL ('#' :: (x1 :: x2 :: y1 :: y2 :: z1 :: z2 :: w1 :: w2 :: []))
          ['#'] = true := by
        simp [startsWithL, List.isPrefixOf]
      simp only [hstart, if_pos]
      rw [parseHex]
      have hclean : hexCleaned ⟨'#' :: (x1 :: x2 :: y1 :: y2 :: z1 :: z2 :: w1 :: w2 :: [])⟩ =
          x1 :: x2 :: y1 :: y2 :: z1 :: z2 :: w1 :: w2 :: [] := rfl
      rw [hclean, parseHexList, ← hx, ← hy, ← hz, ← hw, hpr, hpg, hpb, hpa]
      rfl
    refine ⟨_, hparse, ?_⟩
    rw [hser]
    rw [rgbaToHex]
    have hklt : (k : ℚ) / 255 < 1 := by
      rw [div_lt_one (by norm_num : (0:ℚ) < 255)]
      calc (k : ℚ) ≤ 254 := by exact_mod_cast hk254
      _ < 255 := by norm_num
    have hpos : ((⟨((nr : ℤ) : ℚ), ((ng : ℤ) : ℚ), ((nb : ℤ) : ℚ), (k : ℚ) / 255⟩ : RGBA).a < 1) :=
      hklt
    rw [if_pos hpos]
    have hR : jsNumToHexByte
        ((⟨((nr : ℤ) : ℚ), ((ng : ℤ) : ℚ), ((nb : ℤ) : ℚ), (k : ℚ) / 255⟩ : RGBA).r) =
        intHexByte ((nr : ℕ) : ℤ) := by
      show jsNumToHexByte ((nr : ℤ) : ℚ) = _
      rw [jsNumToHexByte, jsRound_intCast]
    have hG : jsNumToHexByte
        ((⟨((nr : ℤ) : ℚ), ((ng : ℤ) : ℚ), ((nb : ℤ) : ℚ), (k : ℚ) / 255⟩ : RGBA).g) =
        intHexByte ((ng : ℕ) : ℤ) := by
      show jsNumToHexByte ((ng : ℤ) : ℚ) = _
      rw [jsNumToHexByte, jsRound_intCast]
    have hB : jsNumToHexByte
        ((⟨((nr : ℤ) : ℚ), ((ng : ℤ) : ℚ), ((nb : ℤ) : ℚ), (k : ℚ) / 255⟩ : RGBA).b) =
        intHexByte ((nb : ℕ) : ℤ) := by
      show jsNumToHexByte ((nb : ℤ) : ℚ) = _
      rw [jsNumToHexByte, jsRound_intCast]
    have hA : jsNumToHexByte
        ((⟨((nr : ℤ) : ℚ), ((ng : ℤ) : ℚ), ((nb : ℤ) : ℚ), (k : ℚ) / 255⟩ : RGBA).a * 255) =
        intHexByte k := by
      show jsNumToHexByte ((k : ℚ) / 255 * 255) = _
      rw [div_mul_cancel₀ _ (by norm_num : (255:ℚ) ≠ 0), jsNumToHexByte, jsRound_intCast]
    rw [hR, hG, hB, hA, hx, hy, hz, hw]
    rfl

/-- Witness instantiating the amended C4 theorem at a concrete RGBA with a
translucent alpha. -/
theorem rgbaToHex_parse_idempotent_witness :
    ∃ rgba' : RGBA, parseColor (rgbaToHex ⟨255, 102, 0, 1/2⟩) = some rgba' ∧
      rgbaToHex rgba' = rgbaToHex ⟨255, 102, 0, 1/2⟩ :=
  rgbaToHex_parse_idempotent ⟨255, 102, 0, 1/2⟩
    ⟨255, by norm_num, by norm_num⟩ ⟨102, by norm_num, by norm_num⟩
    ⟨0, by norm_num, by norm_num⟩ (by norm_num) (by norm_num)
    (Or.inr (by with_unfolding_all decide))

/-! ## Claim C10: component shape of the rgb() regex -/

theorem rgbHead_lit (rest : List Char) : rgbHead ('r' :: 'g' :: 'b' :: '(' :: rest) = [rest] :=
  rfl

theorem wsSplits_of_head_not_ws {c : Char} (t : List Char) (h : isJsWs c = false) :
    wsSplits (c :: t) = [c :: t] := by
  simp [wsSplits, List.takeWhile_cons, h]

theorem sepSplits_of_head_digit {c : Char} (t : List Char) (h : isDigitChar c = true) :
    sepSplits (c :: t) = [] := by
  have hws := digit_not_ws h
  have hcomma : c ≠ ',' := ne_of_pred_tf h (by decide)
  unfold sepSplits
  rw [wsSplits_of_head_not_ws t hws]
  simp [hcomma, hws]

theorem optFrac_head_digit {c : Char} (t : List Char) (h : isDigitChar c = true) :
    optFrac (c :: t) = [([], c :: t)] := by
  have hne : c ≠ '.' := ne_of_pred_tf h (by decide)
  simp [optFrac, hne]

theorem optPctC_head_digit {c : Char} (t : List Char) (h : isDigitChar c = true) :
    optPctC (c :: t) = [([], c :: t)] := by
  have hne : c ≠ '%' := ne_of_pred_tf h (by decide)
  simp [optPctC, hne]

theorem digitsUpTo3_head_nondigit {c : Char} (t : List Char) (h : isDigitChar c = false) :
    digitsUpTo3 (c :: t) = [] := by
  simp [digitsUpTo3, List.takeWhile_cons, h]

theorem component_head_nondigit {c : Char} (t : List Char) (h : isDigitChar c = false) :
    component (c :: t) = [] := by
  simp [component, digitsUpTo3_head_nondigit t h]

/-- On an input starting with at least four digits, `\d{1,3}` stops at three
and every backtracking alternative leaves a digit at the head of the rest. -/
theorem component_head_digit4 {a b c d : Char} (t : List Char)
    (ha : isDigitChar a = true) (hb : isDigitChar b = true) (hc : isDigitChar c = true)
    (hd : isDigitChar d = true) :
    component (a :: b :: c :: d :: t) =
      [([a, b, c], d :: t), ([a, b], c :: d :: t), ([a], b :: c :: d :: t)] := by
  have htw : (a :: b :: c :: d :: t).takeWhile isDigitChar =
      a :: b :: c :: d :: t.takeWhile isDigitChar := by
    simp [List.takeWhile_cons, ha, hb, hc, hd]
  have hmin : min (a :: b :: c :: d :: t.takeWhile isDigitChar).length 3 = 3 := by
    simp only [List.length_cons]
    omega
  have hd3 : digitsUpTo3 (a :: b :: c :: d :: t) =
      [([a, b, c], d :: t), ([a, b], c :: d :: t), ([a], b :: c :: d :: t)] := by
    unfold digitsUpTo3
    rw [htw, hmin]
    rfl
  unfold component
  rw [hd3]
  simp [optFrac_head_digit _ hd, optFrac_head_digit _ hc, optFrac_head_digit _ hb,
    optPctC_head_digit _ hd, optPctC_head_digit _ hc, optPctC_head_digit _ hb]

theorem parseRgb_eq_none_of_captures_none {s : String} (h : rgbCaptures s.data = none) :
    parseRgb s = none := by
  unfold parseRgb
  rw [h]

set_option maxHeartbeats 1000000 in
/-- Claim C10: the rgb()/rgba() component pattern admits at most three
integer digits and no sign, so over-long components such as `rgb(1000, 0,
0)` and signed components such as `rgb(-5, 0, 0)` are rejected with null,
while out-of-range three-digit components such as `rgb(300, 102, 0)` match
the pattern and are accepted with clamping to [0,255]. -/
theorem parseRgb_component_shape :
    (∀ ds : List Char, 4 ≤ ds.length → (∀ x ∈ ds, isDigitChar x = true) →
      parseRgb ⟨'r' :: 'g' :: 'b' :: '(' :: (ds ++ (", 0, 0)".data))⟩ = none) ∧
    (∀ rest : List Char, parseRgb ⟨'r' :: 'g' :: 'b' :: '(' :: '-' :: rest⟩ = none) ∧
    parseRgb "rgb(1000, 0, 0)" = none ∧
    parseRgb "rgb(-5, 0, 0)" = none ∧
    parseRgb "rgb(300, 102, 0)" = some ⟨255, 102, 0, 1⟩ := by
  refine ⟨?_, ?_, ?_, ?_, ?_⟩
  · intro ds h4 hdig
    rcases ds with _ | ⟨a, ds⟩
    · simp at h4
    rcases ds with _ | ⟨b, ds⟩
    · simp at h4
    rcases ds with _ | ⟨c, ds⟩
    · simp at h4
    rcases ds with _ | ⟨d, t⟩
    · simp at h4
    have ha : isDigitChar a = true := hdig a (by simp)
    have hb : isDigitChar b = true := hdig b (by simp)
    have hc : isDigitChar c = true := hdig c (by simp)
    have hd : isDigitChar d = true := hdig d (by simp)
    have hcap : rgbCaptures
        ('r' :: 'g' :: 'b' :: '(' :: ((a :: b :: c :: d :: t) ++ (", 0, 0)".data))) = none := by
      unfold rgbCaptures
      rw [rgbHead_lit]
      simp only [List.cons_append, List.flatMap_cons, List.flatMap_nil, List.append_nil]
      rw [wsSplits_of_head_not_ws _ (digit_not_ws ha)]
      simp only [List.flatMap_cons, List.flatMap_nil, List.append_nil]
      rw [component_head_digit4 _ ha hb hc hd]
      simp only [List.flatMap_cons, List.flatMap_nil, List.append_nil]
      rw [sepSplits_of_head_digit _ hd, sepSplits_of_head_digit _ hc,
        sepSplits_of_head_digit _ hb]
      rfl
    exact parseRgb_eq_none_of_captures_none hcap
  · intro rest
    have hcap : rgbCaptures ('r' :: 'g' :: 'b' :: '(' :: '-' :: rest) = none := by
      unfold rgbCaptures
      rw [rgbHead_lit]
      simp only [List.flatMap_cons, List.flatMap_nil, List.append_nil]
      rw [wsSplits_of_head_not_ws _ (by decide : isJsWs '-' = false)]
      simp only [List.flatMap_cons, List.flatMap_nil, List.append_nil]
      rw [component_head_nondigit _ (by decide : isDigitChar '-' = false)]
      rfl
    exact parseRgb_eq_none_of_captures_none hcap
  · with_unfolding_all decide
  · with_unfolding_all decide
  · with_unfolding_all decide

/-- Witness instantiating the universal parts of the C10 theorem. -/
theorem parseRgb_component_shape_witness :
    parseRgb ⟨'r' :: 'g' :: 'b' :: '(' :: (['1', '0', '0', '0', '0'] ++ (", 0, 0)".data))⟩ =
        none ∧
    parseRgb ⟨'r' :: 'g' :: 'b' :: '(' :: '-' :: ['7', ')']⟩ = none :=
  ⟨parseRgb_component_shape.1 ['1', '0', '0', '0', '0'] (by decide) (by decide),
   parseRgb_component_shape.2.1 ['7', ')']⟩

/-! ## Claim C7: contrast ratio symmetry and bounds -/

/-- Data-model invariant from the spec: color channels lie in [0, 255]. -/
def channelsInRange (c : RGBA) : Prop :=
  0 ≤ c.r ∧ c.r ≤ 255 ∧ 0 ≤ c.g ∧ c.g ≤ 255 ∧ 0 ≤ c.b ∧ c.b ≤ 255

theorem srgbToLuminanceChannel_mem {c : ℚ} (h0 : 0 ≤ c) (h1 : c ≤ 255) :
    0 ≤ srgbToLuminanceChannel c ∧ srgbToLuminanceChannel c ≤ 1 := by
  have hc0 : (0 : ℝ) ≤ (c : ℝ) := by exact_mod_cast h0
  have hc1 : (c : ℝ) ≤ 255 := by exact_mod_cast h1
  unfold srgbToLuminanceChannel
  have hx0 : (0 : ℝ) ≤ (c : ℝ) / 255 := by positivity
  have hx1 : (c : ℝ) / 255 ≤ 1 := by
    rw [div_le_one (by norm_num : (0:ℝ) < 255)]
    exact hc1
  by_cases hth : (c : ℝ) / 255 ≤ 0.03928
  · rw [if_pos hth]
    constructor
    · positivity
    · have : (c : ℝ) / 255 / 12.92 ≤ (c : ℝ) / 255 := div_le_self hx0 (by norm_num)
      linarith
  · rw [if_neg hth]
    push_neg at hth
    have hb0 : (0 : ℝ) ≤ ((c : ℝ) / 255 + 0.055) / 1.055 :=
      div_nonneg (by linarith) (by norm_num)
    have hb1 : ((c : ℝ) / 255 + 0.055) / 1.055 ≤ 1 := by
      rw [div_le_one (by norm_num : (0:ℝ) < 1.055)]
      linarith
    exact ⟨Real.rpow_nonneg hb0 _, Real.rpow_le_one hb0 hb1 (by norm_num)⟩

theorem getRelativeLuminance_mem {c : RGBA} (h : channelsInRange c) :
    0 ≤ getRelativeLuminance c ∧ getRelativeLuminance c ≤ 1 := by
  obtain ⟨h1, h2, h3, h4, h5, h6⟩ := h
  have hr := srgbToLuminanceChannel_mem h1 h2
  have hg := srgbToLuminanceChannel_mem h3 h4
  have hb := srgbToLuminanceChannel_mem h5 h6
  unfold getRelativeLuminance
  constructor <;> nlinarith [hr.1, hr.2, hg.1, hg.2, hb.1, hb.2]

/-- Claim C7: the contrast ratio is symmetric in its arguments, equals
exactly 1 on identical in-range colors, lies in [1, 21] for in-range
colors, and attains exactly 21 (within any rounding tolerance) on pure
black versus pure white. -/
theorem getContrastRatio_symm_bounds (a b : RGBA) :
    getContrastRatio a b = getContrastRatio b a ∧
    (channelsInRange a → getContrastRatio a a = 1) ∧
    (channelsInRange a → channelsInRange b →
      1 ≤ getContrastRatio a b ∧ getContrastRatio a b ≤ 21) ∧
    getContrastRatio ⟨0, 0, 0, 1⟩ ⟨255, 255, 255, 1⟩ = 21 := by
  refine ⟨?_, ?_, ?_, ?_⟩
  · unfold getContrastRatio
    dsimp only
    rw [max_comm, min_comm]
  · intro ha
    have h := getRelativeLuminance_mem ha
    unfold getContrastRatio
    dsimp only
    rw [max_self, min_self]
    have hpos : (0 : ℝ) < getRelativeLuminance a + 0.05 := by linarith [h.1]
    exact div_self (ne_of_gt hpos)
  · intro ha hb
    have hA := getRelativeLuminance_mem ha
    have hB := getRelativeLuminance_mem hb
    unfold getContrastRatio
    dsimp only
    have hmin0 : 0 ≤ min (getRelativeLuminance a) (getRelativeLuminance b) :=
      le_min hA.1 hB.1
    have hmax1 : max (getRelativeLuminance a) (getRelativeLuminance b) ≤ 1 :=
      max_le hA.2 hB.2
    have hminmax : min (getRelativeLuminance a) (getRelativeLuminance b) ≤
        max (getRelativeLuminance a) (getRelativeLuminance b) := min_le_max
    have hpos : (0 : ℝ) < min (getRelativeLuminance a) (getRelativeLuminance b) + 0.05 := by
      linarith
    constructor
    · rw [le_div_iff hpos]
      linarith
    · rw [div_le_iff hpos]
      linarith
  · have hblack : getRelativeLuminance ⟨0, 0, 0, 1⟩ = 0 := by
      unfold getRelativeLuminance srgbToLuminanceChannel
      norm_num
    have hwhite : getRelativeLuminance ⟨255, 255, 255, 1⟩ = 1 := by
      unfold getRelativeLuminance srgbToLuminanceChannel
      have h255 : (((255 : ℚ) : ℝ)) / 255 = 1 := by norm_num
      rw [h255, if_neg (by norm_num), show ((1 : ℝ) + 0.055) / 1.055 = 1 by norm_num,
        Real.one_rpow]
      norm_num
    unfold getContrastRatio
    dsimp only
    rw [hblack, hwhite, max_eq_right (by norm_num : (0:ℝ) ≤ 1),
      min_eq_left (by norm_num : (0:ℝ) ≤ 1)]
    norm_num

/-- Witness instantiating the C7 theorem on black and white. -/
theorem getContrastRatio_symm_bounds_witness :
    1 ≤ getContrastRatio ⟨0, 0, 0, 1⟩ ⟨255, 255, 255, 1⟩ ∧
    getContrastRatio ⟨0, 0, 0, 1⟩ ⟨255, 255, 255, 1⟩ ≤ 21 :=
  (getContrastRatio_symm_bounds ⟨0, 0, 0, 1⟩ ⟨255, 255, 255, 1⟩).2.2.1
    (by norm_num [channelsInRange]) (by norm_num [channelsInRange])

/-! ## Claim C8: text color selection -/

/-- Claim C8: `computeTextColor` always returns `#111111` or `#FFFFFF`;
when the background is unparseable it returns `#111111`; and when the
background parses it returns a reference color whose contrast ratio against
the background is at least that of the other reference. -/
theorem computeTextColor_cases (s : String) :
    (computeTextColor s = "#111111" ∨ computeTextColor s = "#FFFFFF") ∧
    (parseColor s = none → computeTextColor s = "#111111") ∧
    (∀ bg : RGBA, parseColor s = some bg →
      (computeTextColor s = "#FFFFFF" ∧
        getContrastRatio bg darkTextRgba ≤ getContrastRatio bg lightTextRgba) ∨
      (computeTextColor s = "#111111" ∧
        getContrastRatio bg lightTextRgba ≤ getContrastRatio bg darkTextRgba)) := by
  refine ⟨?_, ?_, ?_⟩
  · unfold computeTextColor
    cases hp : parseColor s with
    | none => exact Or.inl rfl
    | some bg =>
      dsimp only
      by_cases hcmp : getContrastRatio bg lightTextRgba > getContrastRatio bg darkTextRgba
      · rw [if_pos hcmp]
        exact Or.inr rfl
      · rw [if_neg hcmp]
        exact Or.inl rfl
  · intro hp
    unfold computeTextColor
    rw [hp]
    rfl
  · intro bg hp
    unfold computeTextColor
    rw [hp]
    dsimp only
    by_cases hcmp : getContrastRatio bg lightTextRgba > getContrastRatio bg darkTextRgba
    · rw [if_pos hcmp]
      exact Or.inl ⟨rfl, le_of_lt hcmp⟩
    · rw [if_neg hcmp]
      exact Or.inr ⟨rfl, not_lt.mp hcmp⟩

/-- Witness instantiating the C8 theorem on an unparseable background. -/
theorem computeTextColor_cases_witness : computeTextColor "invalid" = "#111111" :=
  (computeTextColor_cases "invalid").2.1 (by with_unfolding_all decide)

/-! ## Naming engine: shared facts -/

theorem toNat_ofNat_valid (n : Nat) (h : n.isValidChar) : (Char.ofNat n).toNat = n := by
  simp [Char.ofNat, Char.toNat, h, Char.ofNatAux, UInt32.toNat, BitVec.toNat_ofNatLt]

theorem char_toUpper_idem (c : Char) : Char.toUpper (Char.toUpper c) = Char.toUpper c := by
  unfold Char.toUpper
  dsimp only
  by_cases h : c.toNat ≥ 97 ∧ c.toNat ≤ 122
  · rw [if_pos h]
    have hval : (c.toNat - 32).isValidChar := by
      left
      omega
    have htn : (Char.ofNat (c.toNat - 32)).toNat = c.toNat - 32 := toNat_ofNat_valid _ hval
    rw [if_neg (by rw [htn]; omega)]
  · rw [if_neg h, if_neg h]

theorem jsToUpper_idem (s : String) : jsToUpper (jsToUpper s) = jsToUpper s := by
  unfold jsToUpper
  apply congrArg
  show (s.data.map Char.toUpper).map Char.toUpper = s.data.map Char.toUpper
  rw [List.map_map]
  exact List.map_congr_left (fun c _ => char_toUpper_idem c)

theorem colorDistance_nonneg (x y : OKLab) : 0 ≤ colorDistance x y :=
  Real.sqrt_nonneg _

theorem colorDistance_self (x : OKLab) : colorDistance x x = 0 := by
  unfold colorDistance
  simp

/-- Unfolding of the `auto` strategy (also the default tail of `provided`):
nearest dataset name under the threshold, synthesized fallback otherwise. -/
theorem nameColor_auto_eq (cache : List ColorEntry) (hueFamilies : List (String × ℚ × ℚ))
    (lightnessMods chromaMods : List (ℚ × ℚ × String)) (color : NormalizedColor)
    (pn : Option (List (String × String))) :
    nameColor cache hueFamilies lightnessMods chromaMods color .auto pn =
      (if (findNearestColor cache color).2 < (((0.15 : ℝ)) : WithTop ℝ) then
        (findNearestColor cache color).1
      else generateFallbackName hueFamilies lightnessMods chromaMods color) := rfl

/-- Unfolding of the `provided` strategy with a present map: truthy exact
lookup, then case-insensitive scan, then the `auto` tail. -/
theorem nameColor_provided_some (cache : List ColorEntry) (hueFamilies : List (String × ℚ × ℚ))
    (lightnessMods chromaMods : List (ℚ × ℚ × String)) (color : NormalizedColor)
    (m : List (String × String)) :
    nameColor cache hueFamilies lightnessMods chromaMods color .provided (some m) =
      (match (match recordGet m (jsToUpper color.hex) with
              | Option.some v => if v = "" then Option.none else Option.some v
              | Option.none => Option.none) with
       | Option.some v => v
       | Option.none =>
         match recordFindCI m (jsToUpper color.hex) with
         | Option.some w => w
         | Option.none =>
           nameColor cache hueFamilies lightnessMods chromaMods color .auto Option.none) := rfl

/-- Fall-through: when no key of the provided map matches the canonical hex
even case-insensitively, the `provided` strategy coincides with `auto`. -/
theorem nameColor_provided_fallthrough (cache : List ColorEntry)
    (hueFamilies : List (String × ℚ × ℚ)) (lightnessMods chromaMods : List (ℚ × ℚ × String))
    (color : NormalizedColor) (m : List (String × String))
    (pn : Option (List (String × String)))
    (h : ∀ kv ∈ m, jsToUpper kv.1 ≠ jsToUpper color.hex) :
    nameColor cache hueFamilies lightnessMods chromaMods color .provided (some m) =
      nameColor cache hueFamilies lightnessMods chromaMods color .auto pn := by
  have hexact : recordGet m (jsToUpper color.hex) = none := by
    unfold recordGet
    rw [List.find?_eq_none.mpr]
    · rfl
    · intro kv hkv
      simp only [beq_iff_eq]
      intro he
      exact h kv hkv (by rw [he, jsToUpper_idem])
  have hci : recordFindCI m (jsToUpper color.hex) = none := by
    unfold recordFindCI
    rw [List.find?_eq_none.mpr]
    · rfl
    · intro kv hkv
      simp only [beq_iff_eq]
      exact h kv hkv
  rw [nameColor_provided_some, hexact, hci]
  rfl

/-- If an accumulator already holds distance zero, the strict-`<` scan never
replaces it (distances are square roots, hence nonnegative). -/
theorem foldl_nearest_at_zero (c : NormalizedColor) (rest : List ColorEntry) :
    ∀ acc : String × WithTop ℝ, acc.2 = (((0 : ℝ)) : WithTop ℝ) →
    rest.foldl
      (fun nearest entry =>
        if ((colorDistance c.oklab entry.color.oklab : ℝ) : WithTop ℝ) < nearest.2 then
          (entry.name, ((colorDistance c.oklab entry.color.oklab : ℝ) : WithTop ℝ))
        else nearest) acc = acc := by
  induction rest with
  | nil => intro acc _; rfl
  | cons f t ih =>
    intro acc hacc
    rw [List.foldl_cons]
    have hnot : ¬(((colorDistance c.oklab f.color.oklab : ℝ) : WithTop ℝ) < acc.2) := by
      rw [hacc, WithTop.coe_lt_coe]
      exact not_lt.mpr (colorDistance_nonneg _ _)
    rw [if_neg hnot]
    exact ih acc hacc

/-- A head entry at distance zero wins the scan with distance zero. -/
theorem findNearestColor_exact_head (e : ColorEntry) (rest : List ColorEntry)
    (c : NormalizedColor) (hx : e.color.oklab = c.oklab) :
    findNearestColor (e :: rest) c = (e.name, (((0 : ℝ)) : WithTop ℝ)) := by
  have hd0 : colorDistance c.oklab e.color.oklab = 0 := by
    rw [hx]
    exact colorDistance_self _
  unfold findNearestColor
  rw [List.foldl_cons]
  dsimp only
  rw [hd0, if_pos (WithTop.coe_lt_top (0 : ℝ))]
  exact foldl_nearest_at_zero c rest _ rfl

/-- Characterization of the strict-`<` linear scan: it returns the earliest
entry attaining the minimum distance, together with that distance. -/
theorem findNearestColor_spec (color : NormalizedColor) (cache : List ColorEntry) :
    cache ≠ [] →
    ∃ i, ∃ hi : i < cache.length,
      findNearestColor cache color =
        ((cache.get ⟨i, hi⟩).name,
          ((colorDistance color.oklab (cache.get ⟨i, hi⟩).color.oklab : ℝ) : WithTop ℝ)) ∧
      (∀ j, ∀ hj : j < cache.length,
        colorDistance color.oklab (cache.get ⟨i, hi⟩).color.oklab ≤
          colorDistance color.oklab (cache.get ⟨j, hj⟩).color.oklab) ∧
      (∀ j, ∀ hj : j < cache.length, j < i →
        colorDistance color.oklab (cache.get ⟨i, hi⟩).color.oklab <
          colorDistance color.oklab (cache.get ⟨j, hj⟩).color.oklab) := by
  induction cache using List.reverseRecOn with
  | nil => intro h; exact absurd rfl h
  | append_singleton l e ih =>
    intro _
    have hstep : findNearestColor (l ++ [e]) color =
        (if ((colorDistance color.oklab e.color.oklab : ℝ) : WithTop ℝ) <
            (findNearestColor l color).2 then
          (e.name, ((colorDistance color.oklab e.color.oklab : ℝ) : WithTop ℝ))
        else findNearestColor l color) := by
      unfold findNearestColor
      rw [List.foldl_append]
      rfl
    have hlen : (l ++ [e]).length = l.length + 1 := by simp
    have hgete : ∀ hj : l.length < (l ++ [e]).length, (l ++ [e]).get ⟨l.length, hj⟩ = e := by
      intro hj
      simp [List.get_eq_getElem, List.getElem_concat_length]
    have hgetl : ∀ j, ∀ hjl : j < l.length, ∀ hj : j < (l ++ [e]).length,
        (l ++ [e]).get ⟨j, hj⟩ = l.get ⟨j, hjl⟩ := by
      intro j hjl hj
      simp [List.get_eq_getElem, List.getElem_append_left hjl]
    rcases eq_or_ne l [] with rfl | hl
    · refine ⟨0, by simp, ?_, ?_, ?_⟩
      · rw [hstep]
        have h2 : (findNearestColor [] color).2 = ⊤ := rfl
        rw [h2, if_pos (WithTop.coe_lt_top _)]
        rfl
      · intro j hj
        have hj0 : j = 0 := by
          simp only [List.nil_append, List.length_cons, List.length_nil] at hj
          omega
        subst hj0
        exact le_refl _
      · intro j hj hcon
        omega
    · obtain ⟨i, hi, heq, hmin, hfirst⟩ := ih hl
      by_cases hlt : colorDistance color.oklab e.color.oklab <
          colorDistance color.oklab ((l.get ⟨i, hi⟩).color.oklab)
      · refine ⟨l.length, by omega, ?_, ?_, ?_⟩
        · rw [hstep, heq, if_pos (WithTop.coe_lt_coe.mpr hlt), hgete]
        · intro j hj
          rw [hgete]
          rcases Nat.lt_or_ge j l.length with hjl | hjg
          · rw [hgetl j hjl hj]
            exact le_of_lt (lt_of_lt_of_le hlt (hmin j hjl))
          · have hjeq : j = l.length := by omega
            subst hjeq
            rw [hgete]
        · intro j hj hcon
          rw [hgete, hgetl j hcon hj]
          exact lt_of_lt_of_le hlt (hmin j hcon)
      · refine ⟨i, by omega, ?_, ?_, ?_⟩
        · rw [hstep, heq, if_neg (fun hc => hlt (WithTop.coe_lt_coe.mp hc)),
            hgetl i hi (by omega)]
        · intro j hj
          rw [hgetl i hi (by omega)]
          rcases Nat.lt_or_ge j l.length with hjl | hjg
          · rw [hgetl j hjl hj]
            exact hmin j hjl
          · have hjeq : j = l.length := by omega
            subst hjeq
            rw [hgete]
            exact not_lt.mp hlt
        · intro j hj hji
          rw [hgetl i hi (by omega), hgetl j (by omega) hj]
          exact hfirst j (by omega) hji

/-! ## Claim C1: nearest-neighbor scan with strict comparison and threshold -/

/-- Claim C1: under `auto` (and the fall-through from `provided`), the scan
selects the earliest-scanned entry attaining the minimum OKLab distance
(strict `<` update), returns its name exactly when that minimum is below
the 0.15 threshold, and synthesizes the OKLCH fallback name otherwise. -/
theorem nameColor_auto_nearest (cache : List ColorEntry)
    (hueFamilies : List (String × ℚ × ℚ)) (lightnessMods chromaMods : List (ℚ × ℚ × String))
    (color : NormalizedColor) (pn : Option (List (String × String)))
    (hne : cache ≠ []) :
    ∃ i, ∃ hi : i < cache.length,
      findNearestColor cache color =
        ((cache.get ⟨i, hi⟩).name,
          ((colorDistance color.oklab (cache.get ⟨i, hi⟩).color.oklab : ℝ) : WithTop ℝ)) ∧
      (∀ j, ∀ hj : j < cache.length,
        colorDistance color.oklab (cache.get ⟨i, hi⟩).color.oklab ≤
          colorDistance color.oklab (cache.get ⟨j, hj⟩).color.oklab) ∧
      (∀ j, ∀ hj : j < cache.length, j < i →
        colorDistance color.oklab (cache.get ⟨i, hi⟩).color.oklab <
          colorDistance color.oklab (cache.get ⟨j, hj⟩).color.oklab) ∧
      (colorDistance color.oklab (cache.get ⟨i, hi⟩).color.oklab < 0.15 →
        nameColor cache hueFamilies lightnessMods chromaMods color .auto pn =
          (cache.get ⟨i, hi⟩).name) ∧
      (¬ colorDistance color.oklab (cache.get ⟨i, hi⟩).color.oklab < 0.15 →
        nameColor cache hueFamilies lightnessMods chromaMods color .auto pn =
          generateFallbackName hueFamilies lightnessMods chromaMods color) ∧
      (∀ m : List (String × String), (∀ kv ∈ m, jsToUpper kv.1 ≠ jsToUpper color.hex) →
        nameColor cache hueFamilies lightnessMods chromaMods color .provided (some m) =
          nameColor cache hueFamilies lightnessMods chromaMods color .auto pn) := by
  obtain ⟨i, hi, heq, hmin, hfirst⟩ := findNearestColor_spec color cache hne
  refine ⟨i, hi, heq, hmin, hfirst, ?_, ?_, ?_⟩
  · intro hth
    rw [nameColor_auto_eq, heq]
    dsimp only
    rw [if_pos (WithTop.coe_lt_coe.mpr hth)]
  · intro hth
    rw [nameColor_auto_eq, heq]
    dsimp only
    rw [if_neg (fun hc => hth (WithTop.coe_lt_coe.mp hc))]
  · intro m hm
    exact nameColor_provided_fallthrough cache hueFamilies lightnessMods chromaMods color m
      pn hm

/-- Witness instantiating the C1 theorem on a one-entry cache. -/
theorem nameColor_auto_nearest_witness :
    ∃ i, ∃ hi : i < ([redEntry] : List ColorEntry).length,
      findNearestColor [redEntry] redEntry.color =
        ((([redEntry] : List ColorEntry).get ⟨i, hi⟩).name,
          ((colorDistance redEntry.color.oklab
            (([redEntry] : List ColorEntry).get ⟨i, hi⟩).color.oklab : ℝ) : WithTop ℝ)) ∧
      (∀ j, ∀ hj : j < ([redEntry] : List ColorEntry).length,
        colorDistance redEntry.color.oklab
            (([redEntry] : List ColorEntry).get ⟨i, hi⟩).color.oklab ≤
          colorDistance redEntry.color.oklab
            (([redEntry] : List ColorEntry).get ⟨j, hj⟩).color.oklab) ∧
      (∀ j, ∀ hj : j < ([redEntry] : List ColorEntry).length, j < i →
        colorDistance redEntry.color.oklab
            (([redEntry] : List ColorEntry).get ⟨i, hi⟩).color.oklab <
          colorDistance redEntry.color.oklab
            (([redEntry] : List ColorEntry).get ⟨j, hj⟩).color.oklab) ∧
      (colorDistance redEntry.color.oklab
          (([redEntry] : List ColorEntry).get ⟨i, hi⟩).color.oklab < 0.15 →
        nameColor [redEntry] [] [] [] redEntry.color .auto none =
          (([redEntry] : List ColorEntry).get ⟨i, hi⟩).name) ∧
      (¬ colorDistance redEntry.color.oklab
          (([redEntry] : List ColorEntry).get ⟨i, hi⟩).color.oklab < 0.15 →
        nameColor [redEntry] [] [] [] redEntry.color .auto none =
          generateFallbackName [] [] [] redEntry.color) ∧
      (∀ m : List (String × String),
        (∀ kv ∈ m, jsToUpper kv.1 ≠ jsToUpper redEntry.color.hex) →
        nameColor [redEntry] [] [] [] redEntry.color .provided (some m) =
          nameColor [redEntry] [] [] [] redEntry.color .auto none) :=
  nameColor_auto_nearest [redEntry] [] [] [] redEntry.color none (by simp)

/-! ## Claim C2: batch naming with uniqueness suffixing -/

theorem uniquifyGo_length (names : List String) (counts : String → ℕ) :
    (uniquifyGo names counts).length = names.length := by
  induction names generalizing counts with
  | nil => rfl
  | cons n rest ih =>
    unfold uniquifyGo
    by_cases hn : n = ""
    · rw [if_pos hn]
      simp [ih]
    · rw [if_neg hn]
      simp [ih]

theorem uniquifyGo_get (names : List String) : ∀ (counts : String → ℕ) (i : ℕ)
    (hi : i < names.length) (hi2 : i < (uniquifyGo names counts).length),
    (uniquifyGo names counts).get ⟨i, hi2⟩ =
      (if names.get ⟨i, hi⟩ = "" then ""
       else if counts (names.get ⟨i, hi⟩) + (names.take i).count (names.get ⟨i, hi⟩) = 0
         then names.get ⟨i, hi⟩
         else names.get ⟨i, hi⟩ ++ " " ++
           toString (counts (names.get ⟨i, hi⟩) + (names.take i).count (names.get ⟨i, hi⟩)
             + 1)) := by
  induction names with
  | nil =>
    intro counts i hi _
    simp at hi
  | cons n rest ih =>
    intro counts i hi hi2
    by_cases hn : n = ""
    · cases i with
      | zero =>
        have hhead : (uniquifyGo (n :: rest) counts).get ⟨0, hi2⟩ = "" := by
          simp [uniquifyGo, hn]
        rw [hhead]
        simp [hn]
      | succ i =>
        have hi' : i < rest.length := by simpa using hi
        have hi2' : i < (uniquifyGo rest counts).length := by
          rw [uniquifyGo_length]
          exact hi'
        have htail : (uniquifyGo (n :: rest) counts).get ⟨i + 1, hi2⟩ =
            (uniquifyGo rest counts).get ⟨i, hi2'⟩ := by
          simp [uniquifyGo, hn]
        rw [htail, ih counts i hi' hi2']
        have hget : (n :: rest).get ⟨i + 1, hi⟩ = rest.get ⟨i, hi'⟩ := rfl
        rw [hget]
        by_cases hm : rest.get ⟨i, hi'⟩ = ""
        · simp only [List.get_eq_getElem] at hm
          simp [hm]
        · have hcnt : ((n :: rest).take (i + 1)).count (rest.get ⟨i, hi'⟩) =
              (rest.take i).count (rest.get ⟨i, hi'⟩) := by
            rw [List.take_succ_cons, List.count_cons]
            have : (n == rest.get ⟨i, hi'⟩) = false := by
              rw [hn]
              exact beq_eq_false_iff_ne.mpr (fun he => hm he.symm)
            rw [this]
            simp
          rw [hcnt]
    · cases i with
      | zero =>
        have hhead : (uniquifyGo (n :: rest) counts).get ⟨0, hi2⟩ =
            (if counts n = 0 then n else n ++ " " ++ toString (counts n + 1)) := by
          simp [uniquifyGo, hn]
        rw [hhead]
        have hget : (n :: rest).get ⟨0, hi⟩ = n := rfl
        rw [hget]
        simp [hn]
      | succ i =>
        have hi' : i < rest.length := by simpa using hi
        have hi2' : i < (uniquifyGo rest
            (fun k => if k = n then counts n + 1 else counts k)).length := by
          rw [uniquifyGo_length]
          exact hi'
        have htail : (uniquifyGo (n :: rest) counts).get ⟨i + 1, hi2⟩ =
            (uniquifyGo rest (fun k => if k = n then counts n + 1 else counts k)).get
              ⟨i, hi2'⟩ := by
          simp [uniquifyGo, hn]
        rw [htail, ih (fun k => if k = n then counts n + 1 else counts k) i hi' hi2']
        have hget : (n :: rest).get ⟨i + 1, hi⟩ = rest.get ⟨i, hi'⟩ := rfl
        rw [hget]
        by_cases hm : rest.get ⟨i, hi'⟩ = ""
        · simp only [List.get_eq_getElem] at hm
          simp [hm]
        · have hcount : (if rest.get ⟨i, hi'⟩ = n then counts n + 1
                else counts (rest.get ⟨i, hi'⟩)) + (rest.take i).count (rest.get ⟨i, hi'⟩) =
              counts (rest.get ⟨i, hi'⟩) +
                ((n :: rest).take (i + 1)).count (rest.get ⟨i, hi'⟩) := by
            rw [List.take_succ_cons, List.count_cons]
            by_cases hmn : rest.get ⟨i, hi'⟩ = n
            · rw [if_pos hmn, hmn]
              have : (n == n) = true := beq_self_eq_true n
              rw [this]
              simp
              omega
            · rw [if_neg hmn]
              have : (n == rest.get ⟨i, hi'⟩) = false :=
                beq_eq_false_iff_ne.mpr (fun he => hmn he.symm)
              rw [this]
              simp
          simp only at hcount ⊢
          rw [if_neg hm, if_neg hm, hcount]

/-- Claim C2: `nameColors` preserves length and order; writing `base i` for
the name computed independently for the i-th color, the output at i is
empty when `base i` is empty, `base i` itself when no earlier position
produced the same base name, and `base i` followed by a space and the
1-based occurrence count otherwise; and naming three identical reds against
a dataset headed by the exactly-matching "Red" entry yields
`["Red", "Red 2", "Red 3"]`. -/
theorem nameColors_spec (cache : List ColorEntry) (hueFamilies : List (String × ℚ × ℚ))
    (lightnessMods chromaMods : List (ℚ × ℚ × String)) (colors : List NormalizedColor)
    (strategy : NamingStrategy) (pn : Option (List (String × String))) :
    (nameColors cache hueFamilies lightnessMods chromaMods colors strategy pn).length =
        colors.length ∧
    (∀ i, ∀ hi : i < colors.length,
      ∀ hi2 : i <
          (nameColors cache hueFamilies lightnessMods chromaMods colors strategy pn).length,
      (nameColors cache hueFamilies lightnessMods chromaMods colors strategy pn).get
          ⟨i, hi2⟩ =
        (if nameColor cache hueFamilies lightnessMods chromaMods (colors.get ⟨i, hi⟩)
            strategy pn = "" then ""
         else if ((colors.map (fun c => nameColor cache hueFamilies lightnessMods chromaMods c
               strategy pn)).take i).count
             (nameColor cache hueFamilies lightnessMods chromaMods (colors.get ⟨i, hi⟩)
               strategy pn) = 0
         then nameColor cache hueFamilies lightnessMods chromaMods (colors.get ⟨i, hi⟩)
           strategy pn
         else nameColor cache hueFamilies lightnessMods chromaMods (colors.get ⟨i, hi⟩)
             strategy pn ++ " " ++
           toString (((colors.map (fun c => nameColor cache hueFamilies lightnessMods
               chromaMods c strategy pn)).take i).count
             (nameColor cache hueFamilies lightnessMods chromaMods (colors.get ⟨i, hi⟩)
               strategy pn) + 1))) ∧
    (∀ (e : ColorEntry) (rest : List ColorEntry) (c : NormalizedColor),
      e.color.oklab = c.oklab → e.name = "Red" →
      nameColors (e :: rest) hueFamilies lightnessMods chromaMods [c, c, c] .auto pn =
        ["Red", "Red 2", "Red 3"]) := by
  refine ⟨?_, ?_, ?_⟩
  · unfold nameColors uniquifyNames
    rw [uniquifyGo_length, List.length_map]
  · intro i hi hi2
    have hmaplen : i < (colors.map (fun c => nameColor cache hueFamilies lightnessMods
        chromaMods c strategy pn)).length := by
      rw [List.length_map]
      exact hi
    have h := uniquifyGo_get
      (colors.map (fun c => nameColor cache hueFamilies lightnessMods chromaMods c strategy pn))
      (fun _ => 0) i hmaplen (by
        unfold nameColors uniquifyNames at hi2
        exact hi2)
    have hgm : (colors.map (fun c => nameColor cache hueFamilies lightnessMods chromaMods c
        strategy pn)).get ⟨i, hmaplen⟩ =
        nameColor cache hueFamilies lightnessMods chromaMods (colors.get ⟨i, hi⟩)
          strategy pn := by
      simp [List.get_eq_getElem, List.getElem_map]
    rw [hgm] at h
    simp only [Nat.zero_add] at h
    exact h
  · intro e rest c hx hname
    have hnc : nameColor (e :: rest) hueFamilies lightnessMods chromaMods c .auto pn =
        "Red" := by
      rw [nameColor_auto_eq, findNearestColor_exact_head e rest c hx]
      dsimp only
      rw [if_pos (by rw [WithTop.coe_lt_coe]; norm_num)]
      exact hname
    unfold nameColors
    have hmap : [c, c, c].map (fun x => nameColor (e :: rest) hueFamilies lightnessMods
        chromaMods x .auto pn) = ["Red", "Red", "Red"] := by
      simp [hnc]
    rw [hmap]
    decide

/-- Witness instantiating the red-example part of the C2 theorem on the
spec-modelled one-entry dataset. -/
theorem nameColors_spec_witness :
    nameColors [redEntry] [] [] [] [redColor, redColor, redColor] .auto none =
      ["Red", "Red 2", "Red 3"] :=
  (nameColors_spec [] [] [] [] [] .auto none).2.2 redEntry [] redColor rfl rfl

/-! ## Claim C9: empty provided names do not fall through -/

theorem recordGet_val_mem {m : List (String × String)} {k v : String}
    (h : recordGet m k = some v) : ∃ kv ∈ m, kv.2 = v := by
  unfold recordGet at h
  cases hf : List.find? (fun e => e.1 == k) m with
  | none =>
    rw [hf] at h
    simp at h
  | some e =>
    rw [hf] at h
    exact ⟨e, List.mem_of_find?_eq_some hf, by simpa using h⟩

/-- Claim C9: under `provided`, when some key matches the canonical hex up
to letter case and every value in the map is the empty string, the empty
provided name is returned as `""` via the case-insensitive scan instead of
falling through to `auto`. -/
theorem nameColor_provided_empty_value (cache : List ColorEntry)
    (hueFamilies : List (String × ℚ × ℚ)) (lightnessMods chromaMods : List (ℚ × ℚ × String))
    (color : NormalizedColor) (m : List (String × String))
    (hall : ∀ kv ∈ m, kv.2 = "")
    (hmatch : ∃ kv ∈ m, jsToUpper kv.1 = jsToUpper color.hex) :
    nameColor cache hueFamilies lightnessMods chromaMods color .provided (some m) = "" := by
  have hsome : (List.find? (fun kv => jsToUpper kv.1 == jsToUpper color.hex) m).isSome := by
    rw [List.find?_isSome]
    obtain ⟨kv, hkv, he⟩ := hmatch
    exact ⟨kv, hkv, by simp [he]⟩
  obtain ⟨e, he⟩ := Option.isSome_iff_exists.mp hsome
  have hci : recordFindCI m (jsToUpper color.hex) = some "" := by
    unfold recordFindCI
    rw [he]
    simp [hall e (List.mem_of_find?_eq_some he)]
  cases hv : recordGet m (jsToUpper color.hex) with
  | none =>
    rw [nameColor_provided_some, hv, hci]
  | some v =>
    have hveq : v = "" := by
      obtain ⟨kv, hkv, hkv2⟩ := recordGet_val_mem hv
      rw [← hkv2]
      exact hall kv hkv
    subst hveq
    rw [nameColor_provided_some, hv, hci]
    dsimp only
    rw [if_pos rfl]

/-- Witness instantiating the C9 theorem on a concrete single-entry map. -/
theorem nameColor_provided_empty_value_witness :
    nameColor [redEntry] [] [] [] redColor .provided (some [("#ff0000", "")]) = "" :=
  nameColor_provided_empty_value [redEntry] [] [] [] redColor [("#ff0000", "")]
    (by simp)
    ⟨("#ff0000", ""), by simp, by with_unfolding_all decide⟩

/-! ## Claim C3: strategy behavior -/

/-- The name component of the scan is either the initial `"Unknown"` or the
name of some cache entry. -/
theorem findNearestColor_name_cases (cache : List ColorEntry) (c : NormalizedColor) :
    (findNearestColor cache c).1 = "Unknown" ∨
      ∃ e ∈ cache, (findNearestColor cache c).1 = e.name := by
  suffices h : ∀ (l : List ColorEntry) (acc : String × WithTop ℝ),
      (l.foldl
        (fun nearest entry =>
          if ((colorDistance c.oklab entry.color.oklab : ℝ) : WithTop ℝ) < nearest.2 then
            (entry.name, ((colorDistance c.oklab entry.color.oklab : ℝ) : WithTop ℝ))
          else nearest) acc).1 = acc.1 ∨
      ∃ e ∈ l, (l.foldl
        (fun nearest entry =>
          if ((colorDistance c.oklab entry.color.oklab : ℝ) : WithTop ℝ) < nearest.2 then
            (entry.name, ((colorDistance c.oklab entry.color.oklab : ℝ) : WithTop ℝ))
          else nearest) acc).1 = e.name by
    rcases h cache ("Unknown", ⊤) with h1 | h2
    · exact Or.inl h1
    · exact Or.inr h2
  intro l
  induction l with
  | nil => intro acc; exact Or.inl rfl
  | cons f t ih =>
    intro acc
    rw [List.foldl_cons]
    by_cases hc : ((colorDistance c.oklab f.color.oklab : ℝ) : WithTop ℝ) < acc.2
    · rw [if_pos hc]
      rcases ih (f.name, ((colorDistance c.oklab f.color.oklab : ℝ) : WithTop ℝ)) with h1 | h2
      · exact Or.inr ⟨f, by simp, h1⟩
      · obtain ⟨e, het, hee⟩ := h2
        exact Or.inr ⟨e, by simp [het], hee⟩
    · rw [if_neg hc]
      rcases ih acc with h1 | h2
      · exact Or.inl h1
      · obtain ⟨e, het, hee⟩ := h2
        exact Or.inr ⟨e, by simp [het], hee⟩

/-- The synthesized fallback name is never empty, provided the hue-family
labels are non-empty after the `replace('2','')` clean-up. -/
theorem generateFallbackName_ne_empty (hueFamilies : List (String × ℚ × ℚ))
    (lightnessMods chromaMods : List (ℚ × ℚ × String)) (color : NormalizedColor)
    (hfam : ∀ fam ∈ hueFamilies, stripTwo fam.1 ≠ "") :
    generateFallbackName hueFamilies lightnessMods chromaMods color ≠ "" := by
  have hhf : getHueFamily hueFamilies color.oklch.h ≠ "" := by
    induction hueFamilies with
    | nil => simp [getHueFamily]
    | cons f rest ih =>
      obtain ⟨fam, st, en⟩ := f
      unfold getHueFamily
      by_cases hcond : ((st : ℝ) ≤ color.oklch.h ∧ color.oklch.h < (en : ℝ))
      · rw [if_pos hcond]
        exact hfam (fam, st, en) (by simp)
      · rw [if_neg hcond]
        exact ih (fun g hg => hfam g (by simp [hg]))
  unfold generateFallbackName
  dsimp only
  by_cases hC : color.oklch.C < 0.02
  · rw [if_pos hC]
    by_cases hL1 : color.oklch.L < 0.15
    · rw [if_pos hL1]
      simp
    · rw [if_neg hL1]
      by_cases hL2 : color.oklch.L > 0.95
      · rw [if_pos hL2]
        simp
      · rw [if_neg hL2]
        by_cases hlm : getLightnessModifier lightnessMods color.oklch.L ≠ ""
        · rw [if_pos hlm]
          intro hcon
          have h2 := congrArg String.length hcon
          have hg : (" Gray" : String).length = 5 := rfl
          have hem : ("" : String).length = 0 := rfl
          simp only [String.length_append, hg, hem] at h2
          omega
        · rw [if_neg hlm]
          simp
  · rw [if_neg hC]
    by_cases h1 : getLightnessModifier lightnessMods color.oklch.L ≠ ""
    · rw [if_pos h1]
      by_cases h2 : getChromaModifier chromaMods color.oklch.C ≠ "" ∧
          getChromaModifier chromaMods color.oklch.C ≠ "Gray"
      · rw [if_pos h2]
        intro hcon
        have hinter : String.intercalate " "
            ([getLightnessModifier lightnessMods color.oklch.L] ++
              [getChromaModifier chromaMods color.oklch.C] ++
              [getHueFamily hueFamilies color.oklch.h]) =
            getLightnessModifier lightnessMods color.oklch.L ++ " " ++
              getChromaModifier chromaMods color.oklch.C ++ " " ++
              getHueFamily hueFamilies color.oklch.h := by
          simp [String.intercalate, String.intercalate.go]
        rw [hinter] at hcon
        have h3 := congrArg String.length hcon
        have hsp : (" " : String).length = 1 := rfl
        have hem : ("" : String).length = 0 := rfl
        simp only [String.length_append, hsp, hem] at h3
        omega
      · rw [if_neg h2]
        intro hcon
        have hinter : String.intercalate " "
            ([getLightnessModifier lightnessMods color.oklch.L] ++ [] ++
              [getHueFamily hueFamilies color.oklch.h]) =
            getLightnessModifier lightnessMods color.oklch.L ++ " " ++
              getHueFamily hueFamilies color.oklch.h := by
          simp [String.intercalate, String.intercalate.go]
        rw [hinter] at hcon
        have h3 := congrArg String.length hcon
        have hsp : (" " : String).length = 1 := rfl
        have hem : ("" : String).length = 0 := rfl
        simp only [String.length_append, hsp, hem] at h3
        omega
    · rw [if_neg h1]
      by_cases h2 : getChromaModifier chromaMods color.oklch.C ≠ "" ∧
          getChromaModifier chromaMods color.oklch.C ≠ "Gray"
      · rw [if_pos h2]
        intro hcon
        have hinter : String.intercalate " "
            (([] : List String) ++ [getChromaModifier chromaMods color.oklch.C] ++
              [getHueFamily hueFamilies color.oklch.h]) =
            getChromaModifier chromaMods color.oklch.C ++ " " ++
              getHueFamily hueFamilies color.oklch.h := by
          simp [String.intercalate, String.intercalate.go]
        rw [hinter] at hcon
        have h3 := congrArg String.length hcon
        have hsp : (" " : String).length = 1 := rfl
        have hem : ("" : String).length = 0 := rfl
        simp only [String.length_append, hsp, hem] at h3
        omega
      · rw [if_neg h2]
        intro hcon
        have hinter : String.intercalate " "
            (([] : List String) ++ [] ++ [getHueFamily hueFamilies color.oklch.h]) =
            getHueFamily hueFamilies color.oklch.h := by
          simp [String.intercalate, String.intercalate.go]
        rw [hinter] at hcon
        exact hhf hcon

/-- Claim C3 (amended): `none` always yields the empty string; `provided`
returns the exact entry when its value is truthy, else the first
case-insensitive match, and falls through to exactly the `auto` result when
no key matches; the `auto` result is non-empty whenever the dataset names
and cleaned hue-family labels are non-empty.  (The fall-through value can
coincide with the provided name of an unrelated key, see the
counterexample, so "must not be N" is dropped.) -/
theorem nameColor_strategies (cache : List ColorEntry)
    (hueFamilies : List (String × ℚ × ℚ)) (lightnessMods chromaMods : List (ℚ × ℚ × String))
    (color : NormalizedColor) (pn : Option (List (String × String))) :
    nameColor cache hueFamilies lightnessMods chromaMods color .none pn = "" ∧
    (∀ m v, recordGet m (jsToUpper color.hex) = some v → v ≠ "" →
      nameColor cache hueFamilies lightnessMods chromaMods color .provided (some m) = v) ∧
    (∀ m w, (recordGet m (jsToUpper color.hex) = none ∨
        recordGet m (jsToUpper color.hex) = some "") →
      recordFindCI m (jsToUpper color.hex) = some w →
      nameColor cache hueFamilies lightnessMods chromaMods color .provided (some m) = w) ∧
    (∀ m, (∀ kv ∈ m, jsToUpper kv.1 ≠ jsToUpper color.hex) →
      nameColor cache hueFamilies lightnessMods chromaMods color .provided (some m) =
        nameColor cache hueFamilies lightnessMods chromaMods color .auto pn) ∧
    ((∀ e ∈ cache, e.name ≠ "") → (∀ fam ∈ hueFamilies, stripTwo fam.1 ≠ "") →
      nameColor cache hueFamilies lightnessMods chromaMods color .auto pn ≠ "") := by
  refine ⟨rfl, ?_, ?_, ?_, ?_⟩
  · intro m v hv hne
    rw [nameColor_provided_some, hv]
    dsimp only
    rw [if_neg hne]
  · intro m w hv hw
    rcases hv with hv | hv
    · rw [nameColor_provided_some, hv, hw]
    · rw [nameColor_provided_some, hv, hw]
      dsimp only
      rw [if_pos rfl]
  · intro m hm
    exact nameColor_provided_fallthrough cache hueFamilies lightnessMods chromaMods color m
      pn hm
  · intro hnames hfam
    rw [nameColor_auto_eq]
    by_cases hth : (findNearestColor cache color).2 < (((0.15 : ℝ)) : WithTop ℝ)
    · rw [if_pos hth]
      rcases findNearestColor_name_cases cache color with h1 | ⟨e, hec, hee⟩
      · rw [h1]
        simp
      · rw [hee]
        exact hnames e hec
    · rw [if_neg hth]
      exact generateFallbackName_ne_empty hueFamilies lightnessMods chromaMods color hfam

/-- Claim C3 counterexample: with a provided map whose single key does not
match the color, the fall-through to `auto` can return exactly the provided
name of that unrelated key (here both are "Red"), so the spec's "must not
be N" clause does not hold in general. -/
theorem nameColor_provided_can_equal_unrelated_name :
    jsToUpper "#000001" ≠ jsToUpper redColor.hex ∧
    nameColor [redEntry] [] [] [] redColor .provided (some [("#000001", "Red")]) = "Red" := by
  have hfall : ∀ kv ∈ [("#000001", "Red")], jsToUpper kv.1 ≠ jsToUpper redColor.hex := by
    intro kv hkv
    simp only [List.mem_singleton] at hkv
    subst hkv
    with_unfolding_all decide
  refine ⟨by with_unfolding_all decide, ?_⟩
  rw [nameColor_provided_fallthrough [redEntry] [] [] [] redColor [("#000001", "Red")]
    none hfall]
  rw [nameColor_auto_eq, findNearestColor_exact_head redEntry [] redColor rfl]
  dsimp only
  rw [if_pos (by rw [WithTop.coe_lt_coe]; norm_num)]
  rfl

/-- Witness instantiating the exact-lookup part of the amended C3 theorem. -/
theorem nameColor_strategies_witness :
    nameColor [redEntry] [] [] [] redColor .provided (some [("#FF0000", "Scarlet")]) =
      "Scarlet" :=
  (nameColor_strategies [redEntry] [] [] [] redColor none).2.1 [("#FF0000", "Scarlet")]
    "Scarlet" (by with_unfolding_all decide) (by decide)

end Palettd
